import Mathlib

/-!
Verification development for the secure command channel of the qgis_mcp
repository: a shallow embedding of the code sandbox
(`security_improved.py`, class `ImprovedCodeSandbox`), the tiered rate
limiter (`ImprovedRateLimiter`), the message dispatcher
(`qgis_mcp_server_secure.py`, `_process_message`), the length-prefix
protocol framer (`protocol.py`), and the async operation manager
(`async_executor.py`), together with theorems settling the frozen claims
about them.
-/

namespace QgisMcp

/-! ## Code sandbox (security_improved.py, ImprovedCodeSandbox)

Python source strings are embedded as a pair of their character count and
their parse result (`none` models a SyntaxError).  The syntax tree mirrors
the fragment of the CPython `ast` node zoo that the sandbox logic
inspects: each constructor records the fields the validators read, and
`childrenA` lists exactly the child nodes that `ast.iter_child_nodes`
would yield (contexts such as `Load`/`Store` are themselves nodes, as in
CPython). -/

/-- Node kinds, mirroring the `type(node)` tags that
`ImprovedCodeSandbox.ALLOWED_NODES` is a set of.  The enumeration covers
the kinds representable by `PyAst` below; `importK`, `importFromK` and
`aliasK` correspond to `ast.Import`, `ast.ImportFrom` and `ast.alias`. -/
inductive PyNodeKind where
  | moduleK | exprK | assignK | augAssignK | annAssignK
  | nameK | constantK | listK | tupleK | setK | dictK
  | binOpK | unaryOpK | compareK | boolOpK | ifExpK
  | ifK | forK | whileK | breakK | continueK
  | functionDefK | returnK | passK
  | callK | attributeK | subscriptK | sliceK
  | listCompK | comprehensionK
  | loadK | storeK | delK
  | addK | subK | multK | divK | modK | powK
  | eqK | notEqK | ltK | gtK | andK | orK | notK
  | argK | argumentsK | keywordK
  | importK | importFromK | aliasK
  | tryK | withK | classDefK | lambdaK | yieldK | globalK | raiseK
  deriving DecidableEq, Repr

/-- Shallow syntax-tree embedding of the CPython AST fragment that the
sandbox validators inspect. -/
inductive PyAst where
  | module (body : List PyAst)
  | exprStmt (value : PyAst)
  | assign (targets : List PyAst) (value : PyAst)
  | name (id : String) (ctx : PyAst)
  | load
  | store
  | delCtx
  | constant
  | listLit (elts : List PyAst) (ctx : PyAst)
  | binOp (left : PyAst) (op : PyAst) (right : PyAst)
  | addOp
  | call (func : PyAst) (args : List PyAst) (keywords : List PyAst)
  | attribute (value : PyAst) (attr : String) (ctx : PyAst)
  | subscript (value : PyAst) (slice : PyAst) (ctx : PyAst)
  | importStmt (names : List PyAst)
  | importFrom (mod : Option String) (names : List PyAst)
  | aliasNode (nm : String)
  | keywordNode (arg : Option String) (value : PyAst)
  | tryStmt (body : List PyAst)
  | classDef (body : List PyAst)
  | functionDef (body : List PyAst)
  | forStmt (target : PyAst) (iter : PyAst) (body : List PyAst)
  | ifStmt (test : PyAst) (body : List PyAst) (orelse : List PyAst)

/-- The `type(node)` tag of a node. -/
def kindOf : PyAst → PyNodeKind
  | .module _ => .moduleK
  | .exprStmt _ => .exprK
  | .assign _ _ => .assignK
  | .name _ _ => .nameK
  | .load => .loadK
  | .store => .storeK
  | .delCtx => .delK
  | .constant => .constantK
  | .listLit _ _ => .listK
  | .binOp _ _ _ => .binOpK
  | .addOp => .addK
  | .call _ _ _ => .callK
  | .attribute _ _ _ => .attributeK
  | .subscript _ _ _ => .subscriptK
  | .importStmt _ => .importK
  | .importFrom _ _ => .importFromK
  | .aliasNode _ => .aliasK
  | .keywordNode _ _ => .keywordK
  | .tryStmt _ => .tryK
  | .classDef _ => .classDefK
  | .functionDef _ => .functionDefK
  | .forStmt _ _ _ => .forK
  | .ifStmt _ _ _ => .ifK

/-- Direct child nodes, as `ast.iter_child_nodes` yields them (fields in
declaration order; expression contexts are child nodes). -/
def childrenA : PyAst → List PyAst
  | .module body => body
  | .exprStmt v => [v]
  | .assign targets v => targets ++ [v]
  | .name _ ctx => [ctx]
  | .load => []
  | .store => []
  | .delCtx => []
  | .constant => []
  | .listLit elts ctx => elts ++ [ctx]
  | .binOp l op r => [l, op, r]
  | .addOp => []
  | .call f args kws => f :: (args ++ kws)
  | .attribute v _ ctx => [v, ctx]
  | .subscript v s ctx => [v, s, ctx]
  | .importStmt names => names
  | .importFrom _ names => names
  | .aliasNode _ => []
  | .keywordNode _ v => [v]
  | .tryStmt body => body
  | .classDef body => body
  | .functionDef body => body
  | .forStmt t i body => t :: i :: body
  | .ifStmt t body orelse => t :: (body ++ orelse)

mutual

/-- Total number of nodes in a tree (used as breadth-first fuel). -/
def sizeA : PyAst → Nat
  | .module body => 1 + sizeListA body
  | .exprStmt v => 1 + sizeA v
  | .assign targets v => 1 + sizeListA targets + sizeA v
  | .name _ ctx => 1 + sizeA ctx
  | .load => 1
  | .store => 1
  | .delCtx => 1
  | .constant => 1
  | .listLit elts ctx => 1 + sizeListA elts + sizeA ctx
  | .binOp l op r => 1 + sizeA l + sizeA op + sizeA r
  | .addOp => 1
  | .call f args kws => 1 + sizeA f + sizeListA args + sizeListA kws
  | .attribute v _ ctx => 1 + sizeA v + sizeA ctx
  | .subscript v s ctx => 1 + sizeA v + sizeA s + sizeA ctx
  | .importStmt names => 1 + sizeListA names
  | .importFrom _ names => 1 + sizeListA names
  | .aliasNode _ => 1
  | .keywordNode _ v => 1 + sizeA v
  | .tryStmt body => 1 + sizeListA body
  | .classDef body => 1 + sizeListA body
  | .functionDef body => 1 + sizeListA body
  | .forStmt t i body => 1 + sizeA t + sizeA i + sizeListA body
  | .ifStmt t body orelse => 1 + sizeA t + sizeListA body + sizeListA orelse

/-- Sum of `sizeA` over a list of nodes. -/
def sizeListA : List PyAst → Nat
  | [] => 0
  | n :: rest => sizeA n + sizeListA rest

end

/-- Breadth-first worklist traversal: pops the head of the queue and
enqueues its children, as CPython's deque-based `ast.walk` does.  `fuel`
bounds the number of pops; `sizeA t` pops suffice for a whole tree. -/
def walkAux : Nat → List PyAst → List PyAst
  | 0, _ => []
  | _, [] => []
  | Nat.succ fuel, n :: rest => n :: walkAux fuel (rest ++ childrenA n)

/-- Embedding of `ast.walk(tree)`: the tree's nodes in breadth-first
order, starting from the root. -/
def walk (t : PyAst) : List PyAst := walkAux (sizeA t) [t]

/-- Embedding of a Python source string as seen by `validate_code`: its
character count and its parse result (`none` for a SyntaxError). -/
structure PyCode where
  length : Nat
  parsed : Option PyAst

/-- Violations raised as `SecurityException` by the sandbox validators. -/
inductive SecErr where
  | codeTooLong
  | invalidPython
  | disallowedOperation (k : PyNodeKind)
  | importNotAllowed (m : String)
  | importNameNotAllowed (m n : String)
  | wildcardImport
  | dangerousFunctionCall (f : String)
  | dangerousMethodCall (f : String)
  | dangerousAttributeAccess (a : String)
  | dangerousNameAccess (n : String)
  deriving DecidableEq, Repr

/-- Association-list lookup with decidable string keys (embedding of a
Python `dict` keyed by strings). -/
def alookup {β : Type} (k : String) : List (String × β) → Option β
  | [] => none
  | (k', v) :: rest => if k = k' then some v else alookup k rest

/-- `ImprovedCodeSandbox.ALLOWED_NODES`, transcribed entry by entry
(restricted to the kinds representable by `PyAst`; `ast.Import`,
`ast.ImportFrom` and `ast.alias` are absent, exactly as in the source,
while `ast.Try`, `ast.With`, `ast.ClassDef`, `ast.Lambda`, `ast.Yield`,
`ast.Global` and `ast.Raise` are likewise absent). -/
def ALLOWED_NODES : List PyNodeKind :=
  [.moduleK, .exprK, .assignK, .annAssignK, .augAssignK,
   .nameK, .constantK,
   .listK, .tupleK, .setK, .dictK,
   .binOpK, .unaryOpK, .compareK, .boolOpK,
   .ifExpK, .ifK, .forK, .whileK, .breakK, .continueK,
   .functionDefK, .returnK, .passK,
   .callK, .attributeK, .subscriptK, .sliceK,
   .listCompK, .comprehensionK,
   .loadK, .storeK, .delK,
   .addK, .subK, .multK, .divK, .modK, .powK,
   .andK, .orK, .notK,
   .eqK, .notEqK, .ltK, .gtK,
   .argK, .argumentsK, .keywordK]

/-- `ImprovedCodeSandbox.ALLOWED_MODULES`: per-module allow-list of
importable symbols. -/
def ALLOWED_MODULES : List (String × List String) :=
  [("qgis.core",
    ["QgsProject", "QgsVectorLayer", "QgsRasterLayer", "QgsFeature",
     "QgsGeometry", "QgsPoint", "QgsPointXY", "QgsRectangle",
     "QgsCoordinateReferenceSystem", "QgsCoordinateTransform",
     "QgsField", "QgsFields", "QgsExpression", "QgsFeatureRequest",
     "QgsWkbTypes", "QgsLayerTreeLayer", "QgsLayerTreeGroup",
     "QgsMapLayer", "QgsVectorFileWriter", "QgsRasterFileWriter"]),
   ("qgis.utils", ["iface"]),
   ("PyQt5.QtCore", ["QVariant", "Qt", "QDateTime", "QDate", "QTime"]),
   ("PyQt5.QtGui", ["QColor"])]

/-- `ImprovedCodeSandbox.DANGEROUS_ATTRS`. -/
def DANGEROUS_ATTRS : List String :=
  ["__builtins__", "__globals__", "__locals__", "__dict__",
   "__class__", "__bases__", "__subclasses__", "__import__",
   "__code__", "__closure__", "__func__", "__self__",
   "func_globals", "func_code", "gi_frame", "gi_code"]

/-- `ImprovedCodeSandbox.DANGEROUS_FUNCTIONS`. -/
def DANGEROUS_FUNCTIONS : List String :=
  ["eval", "exec", "compile", "__import__",
   "open", "input", "exit", "quit",
   "help", "vars", "dir", "globals", "locals",
   "getattr", "setattr", "delattr", "hasattr",
   "breakpoint", "memoryview", "bytearray"]

/-- `ImprovedCodeSandbox._validate_import`: module must be a key of
`ALLOWED_MODULES`, and for `from`-imports each imported name must be
listed for that module and must not be the wildcard. -/
def validateImport : PyAst → Except SecErr Unit
  | .importStmt names =>
      names.forM fun a =>
        match a with
        | .aliasNode nm =>
            if (alookup nm ALLOWED_MODULES).isSome then pure ()
            else throw (.importNotAllowed nm)
        | _ => pure ()
  | .importFrom mod names => do
      let m := mod.getD ""
      match alookup m ALLOWED_MODULES with
      | none => throw (.importNotAllowed m)
      | some allowed_names =>
          names.forM fun a =>
            match a with
            | .aliasNode nm =>
                if nm = "*" then throw .wildcardImport
                else if nm ∈ allowed_names then pure ()
                else throw (.importNameNotAllowed m nm)
            | _ => pure ()
  | _ => pure ()

/-- `ImprovedCodeSandbox._validate_call`: a call whose target is a bare
name, or whose target is an attribute, is rejected when that name is in
`DANGEROUS_FUNCTIONS`. -/
def validateCall : PyAst → Except SecErr Unit
  | .call f _ _ => do
      match f with
      | .name id _ =>
          if id ∈ DANGEROUS_FUNCTIONS then throw (.dangerousFunctionCall id)
          else pure ()
      | _ => pure ()
      match f with
      | .attribute _ attr _ =>
          if attr ∈ DANGEROUS_FUNCTIONS then throw (.dangerousMethodCall attr)
          else pure ()
      | _ => pure ()
  | _ => pure ()

/-- `ImprovedCodeSandbox._validate_attribute`. -/
def validateAttribute : PyAst → Except SecErr Unit
  | .attribute _ attr _ =>
      if attr ∈ DANGEROUS_ATTRS then throw (.dangerousAttributeAccess attr)
      else pure ()
  | _ => pure ()

/-- `ImprovedCodeSandbox._validate_name`: a dangerous name read in `Load`
context is rejected. -/
def validateName : PyAst → Except SecErr Unit
  | .name id ctx =>
      if id ∈ DANGEROUS_FUNCTIONS ∧ kindOf ctx = .loadK then
        throw (.dangerousNameAccess id)
      else pure ()
  | _ => pure ()

/-- Per-node checks of the `validate_code` walk loop, in source order:
the `ALLOWED_NODES` membership gate first, then the import, call,
attribute and name validators (each a no-op on other node types). -/
def validateNode (n : PyAst) : Except SecErr Unit := do
  if kindOf n ∈ ALLOWED_NODES then pure ()
  else throw (.disallowedOperation (kindOf n))
  if kindOf n = .importK ∨ kindOf n = .importFromK then validateImport n
  else pure ()
  validateCall n
  validateAttribute n
  validateName n

/-- `ImprovedCodeSandbox.__init__` configuration. -/
structure ImprovedCodeSandbox where
  max_code_length : Nat := 102400
  timeout_seconds : Nat := 30

/-- `ImprovedCodeSandbox.validate_code`: length gate, parse gate, then
the node walk. -/
def validate_code (sb : ImprovedCodeSandbox) (code : PyCode) :
    Except SecErr Unit :=
  if code.length > sb.max_code_length then throw .codeTooLong
  else
    match code.parsed with
    | none => throw .invalidPython
    | some tree => (walk tree).forM validateNode

/-- State-passing form of `validate_code`: the method reads but never
writes the sandbox object or any global, so the carried state is
returned as is. -/
def validate_code_run (sb : ImprovedCodeSandbox) (code : PyCode) :
    Except SecErr Unit × ImprovedCodeSandbox :=
  (validate_code sb code, sb)

/-! ## Tiered rate limiter (security_improved.py, ImprovedRateLimiter)

Timestamps (`time.time()` values) are embedded as integers and every
method receives the current clock value explicitly.  Python dicts become
association lists with string keys; `aupdate` writes a key and `aerase`
deletes it. -/

/-- Association-list write (embedding of `d[k] = v`). -/
def aupdate {β : Type} (k : String) (v : β) :
    List (String × β) → List (String × β)
  | [] => [(k, v)]
  | (k', v') :: rest =>
      if k = k' then (k, v) :: rest else (k', v') :: aupdate k v rest

/-- Association-list delete (embedding of `del d[k]`; a dict holds each
key at most once, so deletion is keep-everything-but-`k`). -/
def aerase {β : Type} (k : String) (l : List (String × β)) :
    List (String × β) :=
  l.filter (fun kv => kv.1 ≠ k)

/-- `ImprovedRateLimiter` state: the tier table set in `__init__`
(operation class to `(max, window)` in seconds) and the three tracking
dicts. -/
structure ImprovedRateLimiter where
  limits : List (String × (Nat × Nat)) :=
    [("authentication", (5, 900)),
     ("expensive", (10, 600)),
     ("normal", (30, 60)),
     ("cheap", (100, 60))]
  request_history : List (String × List Int) := []
  failed_auth_attempts : List (String × List Int) := []
  lockouts : List (String × Int) := []

/-- Result of `check_rate_limit`: the `SecurityException` raised for a
locked-out client (with the remaining seconds it reports), or the
returned boolean. -/
inductive RLOutcome where
  | lockedOut (remaining : Int)
  | limited
  | allowed
  deriving DecidableEq, Repr

/-- Keep-predicate of `_cleanup_old_clients`: a history entry survives
when it is non-empty and its maximum timestamp is not older than the
cutoff. -/
def keepClient (cutoff : Int) (requests : List Int) : Bool :=
  match requests with
  | [] => false
  | t :: rest => ¬ (rest.foldl max t < cutoff)

/-- `ImprovedRateLimiter._cleanup_old_clients`: drops history entries
with no request newer than twice the longest window. -/
def cleanup_old_clients (rl : ImprovedRateLimiter) (now : Int) :
    ImprovedRateLimiter :=
  let maxWindow := (rl.limits.map (fun l => l.2.2)).foldl max 0
  let cutoff : Int := now - (maxWindow * 2 : Nat)
  { rl with request_history :=
      rl.request_history.filter (fun kv => keepClient cutoff kv.2) }

/-- Sliding-window body of `check_rate_limit`, after the lockout gate:
select the tier (falling back to the `normal` tier for unknown classes),
prune the client's window, refuse when the pruned window is full,
otherwise record the request; the lazy cleanup runs when the history dict
has grown past 1000 keys. -/
def checkRateBody (rl : ImprovedRateLimiter) (now : Int)
    (client_addr operation_type : String) :
    RLOutcome × ImprovedRateLimiter :=
  let limits :=
    match alookup operation_type rl.limits with
    | some l => l
    | none => (alookup "normal" rl.limits).getD (30, 60)
  let max_requests := limits.1
  let window_seconds := limits.2
  let key := client_addr ++ ":" ++ operation_type
  let history := (alookup key rl.request_history).getD []
  let cutoff : Int := now - (window_seconds : Nat)
  let pruned := history.filter (fun t => t > cutoff)
  if pruned.length ≥ max_requests then
    (.limited, { rl with request_history := aupdate key pruned rl.request_history })
  else
    let rl' : ImprovedRateLimiter :=
      { rl with request_history :=
          aupdate key (pruned ++ [now]) rl.request_history }
    let rl'' :=
      if rl'.request_history.length > 1000 then cleanup_old_clients rl' now
      else rl'
    (.allowed, rl'')

/-- `ImprovedRateLimiter.check_rate_limit`: raise while a lockout is
unexpired (deleting an expired one), then run the sliding-window body. -/
def check_rate_limit (rl : ImprovedRateLimiter) (now : Int)
    (client_addr : String) (operation_type : String := "normal") :
    RLOutcome × ImprovedRateLimiter :=
  match alookup client_addr rl.lockouts with
  | some lockout_until =>
      if now < lockout_until then (.lockedOut (lockout_until - now), rl)
      else
        checkRateBody { rl with lockouts := aerase client_addr rl.lockouts }
          now client_addr operation_type
  | none => checkRateBody rl now client_addr operation_type

/-- `ImprovedRateLimiter.record_failed_auth`: prune the client's failure
list to one hour, append the new failure, and once the count reaches 5
install a lockout of `min(3600, 60 * 2^(count-5))` seconds. -/
def record_failed_auth (rl : ImprovedRateLimiter) (now : Int)
    (client_addr : String) : ImprovedRateLimiter :=
  let attempts := (alookup client_addr rl.failed_auth_attempts).getD []
  let cutoff : Int := now - 3600
  let attempts' := attempts.filter (fun t => t > cutoff) ++ [now]
  let rl1 : ImprovedRateLimiter :=
    { rl with failed_auth_attempts :=
        aupdate client_addr attempts' rl.failed_auth_attempts }
  let attempt_count := attempts'.length
  if attempt_count ≥ 5 then
    let lockout_duration : Int := min (60 * 60) (60 * 2 ^ (attempt_count - 5))
    { rl1 with lockouts := aupdate client_addr (now + lockout_duration) rl1.lockouts }
  else rl1

/-- `ImprovedRateLimiter.record_successful_auth`: drop the client's
failure record and lockout. -/
def record_successful_auth (rl : ImprovedRateLimiter) (client_addr : String) :
    ImprovedRateLimiter :=
  { rl with
      failed_auth_attempts := aerase client_addr rl.failed_auth_attempts,
      lockouts := aerase client_addr rl.lockouts }

/-! ## Dispatcher (qgis_mcp_server_secure.py, _process_message)

Only the admission-control part of `_process_message` is relevant to the
claims: the authentication gate, the operation-class mapping, the
rate-limit gate, and the handler lookup.  Handler execution is abstracted
to the set of registered handler names. -/

/-- `QGISMCPServerSecure._get_operation_type`. -/
def get_operation_type (msg_type : String) : String :=
  if msg_type = "authenticate" then "authentication"
  else if msg_type = "execute_code" ∨ msg_type = "load_layer" then "expensive"
  else if msg_type = "ping" ∨ msg_type = "get_stats" then "cheap"
  else "normal"

/-- Outcome of `_process_message` as far as admission control goes. -/
inductive DispatchOutcome where
  | authRequired
  | rateLimited
  | lockedOut (remaining : Int)
  | unknownCommand
  | handled
  deriving DecidableEq, Repr

/-- `QGISMCPServerSecure._process_message`, admission-control part, in
source order: the mandatory-authentication gate first (an early return
that skips rate limiting entirely), then the rate-limit gate wrapping
`check_rate_limit`, then the handler lookup. -/
def process_message (require_auth : Bool) (handlers : List String)
    (rl : ImprovedRateLimiter) (now : Int) (client_id : String)
    (msg_type : String) (authenticated : Bool) :
    DispatchOutcome × ImprovedRateLimiter :=
  if require_auth ∧ ¬authenticated ∧ msg_type ≠ "authenticate" then
    (.authRequired, rl)
  else
    match check_rate_limit rl now client_id (get_operation_type msg_type) with
    | (.lockedOut r, rl') => (.lockedOut r, rl')
    | (.limited, rl') => (.rateLimited, rl')
    | (.allowed, rl') =>
        if msg_type ∈ handlers then (.handled, rl')
        else (.unknownCommand, rl')

/-! ## Async operation manager (async_executor.py)

Operations are identified by `request_id` and tracked in a
manager-owned table.  The domain payload of a finished operation
(`result`, `error`, `progress_message`) plays no role in the lifecycle
logic the claims are about and is not carried. -/

/-- `OperationStatus` (async_executor.py). -/
inductive OperationStatus where
  | pending | running | completed | failed | cancelled | timeout
  deriving DecidableEq, Repr

/-- `AsyncOperationResult`: the lifecycle fields set in `__init__` and
mutated by the worker and by cancellation. -/
structure AsyncOperationResult where
  request_id : String
  status : OperationStatus := .pending
  progress : Nat := 0
  cancelled : Bool := false
  start_time : Int
  end_time : Option Int := none
  deriving DecidableEq, Repr

/-- `AsyncCommandExecutor` state: its configuration, its cooperative
cancellation flag, and its `result_obj`. -/
structure AsyncCommandExecutor where
  request_id : String
  command_type : String
  timeout : Int := 300
  cancelled : Bool := false
  result_obj : AsyncOperationResult
  deriving DecidableEq, Repr

/-- `AsyncCommandExecutor.cancel`: set the cooperative flag and mark the
result object cancelled with an end time. -/
def executorCancel (ex : AsyncCommandExecutor) (now : Int) :
    AsyncCommandExecutor :=
  { ex with
      cancelled := true,
      result_obj := { ex.result_obj with
        status := .cancelled, cancelled := true, end_time := some now } }

/-- First mutation of `AsyncCommandExecutor.run`, executed on the
dedicated worker as soon as it is scheduled: the status is set to
`running`. -/
def executorRunEntry (ex : AsyncCommandExecutor) : AsyncCommandExecutor :=
  { ex with result_obj := { ex.result_obj with status := .running } }

/-- `AsyncOperationManager` state. -/
structure AsyncOperationManager where
  max_concurrent : Nat := 10
  cleanup_after : Int := 3600
  operations : List (String × AsyncCommandExecutor) := []
  deriving DecidableEq, Repr

/-- Errors raised by `start_operation` (`ValueError` for a duplicate id,
`RuntimeError` for the concurrency cap). -/
inductive StartErr where
  | alreadyExists
  | tooManyConcurrent
  deriving DecidableEq, Repr

/-- The `active_count` computed inside `start_operation`: number of
tracked operations whose status is `running`. -/
def runningCount (m : AsyncOperationManager) : Nat :=
  (m.operations.filter (fun kv => kv.2.result_obj.status = .running)).length

/-- `AsyncOperationManager.start_operation`: reject a duplicate id,
reject when the count of running operations has reached
`max_concurrent`, otherwise create the executor with a `pending` result
object, store it, and hand it to its worker (whose first step is
`executorRunEntry`). -/
def start_operation (m : AsyncOperationManager) (now : Int)
    (request_id command_type : String) (timeout : Option Int := none) :
    Except StartErr (AsyncOperationManager × AsyncOperationResult) :=
  if (alookup request_id m.operations).isSome then throw .alreadyExists
  else if runningCount m ≥ m.max_concurrent then throw .tooManyConcurrent
  else
    let executor : AsyncCommandExecutor :=
      { request_id := request_id,
        command_type := command_type,
        timeout := timeout.getD 300,
        result_obj := { request_id := request_id, start_time := now } }
    pure ({ m with operations := aupdate request_id executor m.operations },
          executor.result_obj)

/-- Worker scheduling step of the operation started under `request_id`:
the entry of `run()` flips its status to `running`. -/
def workerRunEntry (m : AsyncOperationManager) (request_id : String) :
    AsyncOperationManager :=
  match alookup request_id m.operations with
  | none => m
  | some ex =>
      { m with operations := aupdate request_id (executorRunEntry ex) m.operations }

/-- `AsyncOperationManager.get_status`: the tracked result object, or
`none` for an unknown id; the table is read, never written. -/
def get_status (m : AsyncOperationManager) (request_id : String) :
    Option AsyncOperationResult :=
  (alookup request_id m.operations).map (fun ex => ex.result_obj)

/-- `AsyncOperationManager.cancel_operation`: `false` for an unknown id
or for a status other than `pending`/`running`; otherwise run the
executor's `cancel` and return `true`. -/
def cancel_operation (m : AsyncOperationManager) (now : Int)
    (request_id : String) : Bool × AsyncOperationManager :=
  match alookup request_id m.operations with
  | none => (false, m)
  | some ex =>
      if ex.result_obj.status = .pending ∨ ex.result_obj.status = .running then
        let ops := aupdate request_id (executorCancel ex now) m.operations
        (true, { m with operations := ops })
      else (false, m)

/-! ## Protocol framer (protocol.py)

Wire bytes are embedded as `List Nat` with each element below 256.
Messages are embedded as `MPValue`: the space of values that the
serializers exchange (`None`, booleans, integers, text, arrays and
string-keyed mappings).  Text is embedded as its list of code points;
the well-formedness predicate `wfValue` restricts to ASCII text and to
the 64-bit integer range `msgpack.packb` accepts, which is the domain
the round-trip theorems quantify over.  Binary floats are outside the
embedded domain. -/

/-- Value space of the pluggable serializers. -/
inductive MPValue where
  | nil
  | boolV (b : Bool)
  | intV (n : Int)
  | strV (s : List Nat)
  | arrV (xs : List MPValue)
  | mapV (kvs : List (List Nat × MPValue))

/-- Code points of a Lean string literal, for writing concrete message
fields. -/
def strB (s : String) : List Nat := s.data.map Char.toNat

mutual

/-- Well-formed values: integers in the range `msgpack.packb` accepts,
ASCII text, and container sizes below `2^32`. -/
def wfValue : MPValue → Bool
  | .nil => true
  | .boolV _ => true
  | .intV n => decide (-(2 ^ 63 : Int) ≤ n ∧ n < 2 ^ 64)
  | .strV s => s.all (fun c => c < 128) && decide (s.length < 2 ^ 32)
  | .arrV xs => wfList xs && decide (xs.length < 2 ^ 32)
  | .mapV kvs => wfPairs kvs && decide (kvs.length < 2 ^ 32)

/-- `wfValue` over the elements of an array. -/
def wfList : List MPValue → Bool
  | [] => true
  | v :: rest => wfValue v && wfList rest

/-- `wfValue` over the entries of a mapping (keys are ASCII text). -/
def wfPairs : List (List Nat × MPValue) → Bool
  | [] => true
  | (k, v) :: rest =>
      (k.all (fun c => c < 128) && decide (k.length < 2 ^ 32)) &&
        (wfValue v && wfPairs rest)

end

/-- Big-endian split of a 16-bit value into two bytes. -/
def be16 (n : Nat) : List Nat := [n / 256 % 256, n % 256]

/-- Big-endian split of a 32-bit value into four bytes (the frame
header's `struct.pack('!I', n)`). -/
def be32 (n : Nat) : List Nat :=
  [n / 16777216 % 256, n / 65536 % 256, n / 256 % 256, n % 256]

/-- Big-endian split of a 64-bit value into eight bytes. -/
def be64 (n : Nat) : List Nat :=
  [n / 72057594037927936 % 256, n / 281474976710656 % 256,
   n / 1099511627776 % 256, n / 4294967296 % 256,
   n / 16777216 % 256, n / 65536 % 256, n / 256 % 256, n % 256]

/-- Big-endian read of two bytes. -/
def rd16 (a b : Nat) : Nat := a * 256 + b

/-- Big-endian read of four bytes (the frame header's
`struct.unpack('!I', _)`). -/
def rd32 (a b c d : Nat) : Nat := ((a * 256 + b) * 256 + c) * 256 + d

/-- Big-endian read of eight bytes. -/
def rd64 (a b c d e f g h : Nat) : Nat :=
  ((((((a * 256 + b) * 256 + c) * 256 + d) * 256 + e) * 256 + f) * 256 + g)
    * 256 + h

/-- MessagePack encoding of an integer, choosing the smallest family
member as `msgpack.packb` does. -/
def mpEncInt (n : Int) : List Nat :=
  if 0 ≤ n then
    let m := n.toNat
    if m < 128 then [m]
    else if m < 256 then [0xcc, m]
    else if m < 65536 then 0xcd :: be16 m
    else if m < 4294967296 then 0xce :: be32 m
    else 0xcf :: be64 (m % 18446744073709551616)
  else
    if -32 ≤ n then [(256 + n).toNat]
    else if -128 ≤ n then [0xd0, (256 + n).toNat]
    else if -32768 ≤ n then 0xd1 :: be16 (65536 + n).toNat
    else if -2147483648 ≤ n then 0xd2 :: be32 (4294967296 + n).toNat
    else 0xd3 :: be64 ((18446744073709551616 + n).toNat % 18446744073709551616)

/-- MessagePack str-family header for a text of the given length
(`use_bin_type=True`, so text uses the str family). -/
def mpStrHeader (len : Nat) : List Nat :=
  if len < 32 then [0xa0 + len]
  else if len < 256 then [0xd9, len]
  else if len < 65536 then 0xda :: be16 len
  else 0xdb :: be32 (len % 4294967296)

/-- MessagePack array header. -/
def mpArrHeader (len : Nat) : List Nat :=
  if len < 16 then [0x90 + len]
  else if len < 65536 then 0xdc :: be16 len
  else 0xdd :: be32 (len % 4294967296)

/-- MessagePack map header. -/
def mpMapHeader (len : Nat) : List Nat :=
  if len < 16 then [0x80 + len]
  else if len < 65536 then 0xde :: be16 len
  else 0xdf :: be32 (len % 4294967296)

mutual

/-- Embedding of `msgpack.packb(_, use_bin_type=True)` on the value
space. -/
def mpEnc : MPValue → List Nat
  | .nil => [0xc0]
  | .boolV false => [0xc2]
  | .boolV true => [0xc3]
  | .intV n => mpEncInt n
  | .strV s => mpStrHeader s.length ++ s
  | .arrV xs => mpArrHeader xs.length ++ mpEncList xs
  | .mapV kvs => mpMapHeader kvs.length ++ mpEncPairs kvs

/-- Concatenated encodings of array elements. -/
def mpEncList : List MPValue → List Nat
  | [] => []
  | v :: rest => mpEnc v ++ mpEncList rest

/-- Concatenated encodings of map entries (text key, then value). -/
def mpEncPairs : List (List Nat × MPValue) → List Nat
  | [] => []
  | (k, v) :: rest => (mpStrHeader k.length ++ k) ++ mpEnc v ++ mpEncPairs rest

end

/-- Split off exactly `n` bytes, or fail. -/
def takeExact (n : Nat) (l : List Nat) : Option (List Nat × List Nat) :=
  if n ≤ l.length then some (l.take n, l.drop n) else none

/-- Two's-complement reinterpretation of an unsigned value of the given
modulus. -/
def signedOf (modulus v : Nat) : Int :=
  if v < modulus / 2 then (v : Int) else (v : Int) - (modulus : Int)

set_option maxRecDepth 8192

mutual

/-- Embedding of `msgpack.unpackb(_, raw=False)`: parse one value from
the byte stream and return it with the remaining bytes.  `fuel` bounds
the nesting depth; one unit is spent per nesting level, so any fuel of
at least the value's depth parses it.  Map keys must decode to text
(dict keys in the exchanged messages are strings). -/
def mpDec : Nat → List Nat → Option (MPValue × List Nat)
  | 0, _ => none
  | _ + 1, [] => none
  | fuel + 1, b :: rest =>
    if b < 128 then some (.intV b, rest)
    else if b < 0x90 then
      (mpDecPairs fuel (b - 0x80) rest).map (fun p => (.mapV p.1, p.2))
    else if b < 0xa0 then
      (mpDecList fuel (b - 0x90) rest).map (fun p => (.arrV p.1, p.2))
    else if b < 0xc0 then
      (takeExact (b - 0xa0) rest).map (fun p => (.strV p.1, p.2))
    else if b = 0xc0 then some (.nil, rest)
    else if b = 0xc2 then some (.boolV false, rest)
    else if b = 0xc3 then some (.boolV true, rest)
    else if b = 0xcc then
      match rest with
      | a :: r => some (.intV a, r)
      | _ => none
    else if b = 0xcd then
      match rest with
      | a :: b1 :: r => some (.intV (rd16 a b1), r)
      | _ => none
    else if b = 0xce then
      match rest with
      | a :: b1 :: c :: d :: r => some (.intV (rd32 a b1 c d), r)
      | _ => none
    else if b = 0xcf then
      match rest with
      | a :: b1 :: c :: d :: e :: f :: g :: h :: r =>
          some (.intV (rd64 a b1 c d e f g h), r)
      | _ => none
    else if b = 0xd0 then
      match rest with
      | a :: r => some (.intV (signedOf 256 a), r)
      | _ => none
    else if b = 0xd1 then
      match rest with
      | a :: b1 :: r => some (.intV (signedOf 65536 (rd16 a b1)), r)
      | _ => none
    else if b = 0xd2 then
      match rest with
      | a :: b1 :: c :: d :: r =>
          some (.intV (signedOf 4294967296 (rd32 a b1 c d)), r)
      | _ => none
    else if b = 0xd3 then
      match rest with
      | a :: b1 :: c :: d :: e :: f :: g :: h :: r =>
          some (.intV (signedOf 18446744073709551616 (rd64 a b1 c d e f g h)), r)
      | _ => none
    else if b = 0xd9 then
      match rest with
      | len :: r => (takeExact len r).map (fun p => (.strV p.1, p.2))
      | _ => none
    else if b = 0xda then
      match rest with
      | a :: b1 :: r => (takeExact (rd16 a b1) r).map (fun p => (.strV p.1, p.2))
      | _ => none
    else if b = 0xdb then
      match rest with
      | a :: b1 :: c :: d :: r =>
          (takeExact (rd32 a b1 c d) r).map (fun p => (.strV p.1, p.2))
      | _ => none
    else if b = 0xdc then
      match rest with
      | a :: b1 :: r =>
          (mpDecList fuel (rd16 a b1) r).map (fun p => (.arrV p.1, p.2))
      | _ => none
    else if b = 0xdd then
      match rest with
      | a :: b1 :: c :: d :: r =>
          (mpDecList fuel (rd32 a b1 c d) r).map (fun p => (.arrV p.1, p.2))
      | _ => none
    else if b = 0xde then
      match rest with
      | a :: b1 :: r =>
          (mpDecPairs fuel (rd16 a b1) r).map (fun p => (.mapV p.1, p.2))
      | _ => none
    else if b = 0xdf then
      match rest with
      | a :: b1 :: c :: d :: r =>
          (mpDecPairs fuel (rd32 a b1 c d) r).map (fun p => (.mapV p.1, p.2))
      | _ => none
    else if 0xe0 ≤ b ∧ b ≤ 0xff then some (.intV ((b : Int) - 256), rest)
    else none

/-- Parse `n` consecutive values (an array body). -/
def mpDecList : Nat → Nat → List Nat → Option (List MPValue × List Nat)
  | _, 0, l => some ([], l)
  | 0, _ + 1, _ => none
  | fuel + 1, n + 1, l =>
      match mpDec fuel l with
      | none => none
      | some (v, r) =>
        match mpDecList fuel n r with
        | none => none
        | some (vs, r') => some (v :: vs, r')

/-- Parse `n` consecutive key-value entries (a map body). -/
def mpDecPairs : Nat → Nat → List Nat →
    Option (List (List Nat × MPValue) × List Nat)
  | _, 0, l => some ([], l)
  | 0, _ + 1, _ => none
  | fuel + 1, n + 1, l =>
      match mpDec fuel l with
      | none => none
      | some (k, r) =>
        match k with
        | .strV s =>
          (match mpDec fuel r with
           | none => none
           | some (v, r') =>
             match mpDecPairs fuel n r' with
             | none => none
             | some (kvs, r'') => some ((s, v) :: kvs, r''))
        | _ => none

end

/-- Digit-peeling worker for decimal rendering; `fuel` bounds the digit
count and any fuel above `n` is enough. -/
def natToDigitsAux : Nat → Nat → List Nat
  | 0, _ => []
  | fuel + 1, n =>
      if n < 10 then [48 + n]
      else natToDigitsAux fuel (n / 10) ++ [48 + n % 10]

/-- Decimal digits of a natural number, most significant first
(`json.dumps` rendering of a non-negative integer). -/
def natToDigits (n : Nat) : List Nat := natToDigitsAux (n + 1) n

/-- `json.dumps` rendering of an integer. -/
def jsonEncInt (n : Int) : List Nat :=
  if n < 0 then 45 :: natToDigits (-n).toNat else natToDigits n.toNat

/-- Lowercase hex digit. -/
def hexDigitChar (d : Nat) : Nat := if d < 10 then 48 + d else 87 + d

/-- `json.dumps` (ensure_ascii) escape of one ASCII code point. -/
def escapeChar (c : Nat) : List Nat :=
  if c = 34 then [92, 34]
  else if c = 92 then [92, 92]
  else if c = 8 then [92, 98]
  else if c = 9 then [92, 116]
  else if c = 10 then [92, 110]
  else if c = 12 then [92, 102]
  else if c = 13 then [92, 114]
  else if c < 32 then [92, 117, 48, 48, hexDigitChar (c / 16), hexDigitChar (c % 16)]
  else [c]

/-- Escaped body of a JSON string literal. -/
def escapeStr (s : List Nat) : List Nat := (s.map escapeChar).flatten

/-- Quoted JSON string literal. -/
def jsonEncStr (s : List Nat) : List Nat := 34 :: (escapeStr s ++ [34])

mutual

/-- Embedding of `json.dumps` (default separators, so a space follows
every comma and colon) on the value space. -/
def jsonEnc : MPValue → List Nat
  | .nil => [110, 117, 108, 108]
  | .boolV true => [116, 114, 117, 101]
  | .boolV false => [102, 97, 108, 115, 101]
  | .intV n => jsonEncInt n
  | .strV s => jsonEncStr s
  | .arrV [] => [91, 93]
  | .arrV (x :: xs) => 91 :: (jsonEnc x ++ jsonEncElems xs ++ [93])
  | .mapV [] => [123, 125]
  | .mapV ((k, v) :: kvs) =>
      123 :: (jsonEncStr k ++ [58, 32] ++ jsonEnc v ++ jsonEncEntries kvs ++ [125])

/-- Remaining array elements, each preceded by a comma and space. -/
def jsonEncElems : List MPValue → List Nat
  | [] => []
  | x :: xs => [44, 32] ++ jsonEnc x ++ jsonEncElems xs

/-- Remaining object entries, each preceded by a comma and space. -/
def jsonEncEntries : List (List Nat × MPValue) → List Nat
  | [] => []
  | (k, v) :: kvs =>
      [44, 32] ++ jsonEncStr k ++ [58, 32] ++ jsonEnc v ++ jsonEncEntries kvs

end

/-- JSON insignificant whitespace. -/
def isWs (c : Nat) : Bool := c == 32 || c == 9 || c == 10 || c == 13

/-- Skip insignificant whitespace. -/
def skipWs (l : List Nat) : List Nat := l.dropWhile isWs

/-- Value of one hex digit. -/
def hexVal (c : Nat) : Option Nat :=
  if 48 ≤ c ∧ c ≤ 57 then some (c - 48)
  else if 97 ≤ c ∧ c ≤ 102 then some (c - 87)
  else if 65 ≤ c ∧ c ≤ 70 then some (c - 55)
  else none

/-- Resolution of a short escape. -/
def unescapeChar (e : Nat) : Option Nat :=
  if e = 34 then some 34
  else if e = 92 then some 92
  else if e = 47 then some 47
  else if e = 98 then some 8
  else if e = 116 then some 9
  else if e = 110 then some 10
  else if e = 102 then some 12
  else if e = 114 then some 13
  else none

/-- Parse the body of a JSON string literal up to its closing quote. -/
def jsonDecStrBody : List Nat → Option (List Nat × List Nat)
  | [] => none
  | c :: rest =>
    if c = 34 then some ([], rest)
    else if c = 92 then
      match rest with
      | [] => none
      | e :: r2 =>
        if e = 117 then
          match r2 with
          | h1 :: h2 :: h3 :: h4 :: r3 =>
            (match hexVal h1, hexVal h2, hexVal h3, hexVal h4 with
             | some d1, some d2, some d3, some d4 =>
               (match jsonDecStrBody r3 with
                | none => none
                | some (s, r4) =>
                  some ((((d1 * 16 + d2) * 16 + d3) * 16 + d4) :: s, r4))
             | _, _, _, _ => none)
          | _ => none
        else
          match unescapeChar e with
          | none => none
          | some u =>
            match jsonDecStrBody r2 with
            | none => none
            | some (s, r3) => some (u :: s, r3)
    else
      match jsonDecStrBody rest with
      | none => none
      | some (s, r2) => some (c :: s, r2)

/-- Decimal digit. -/
def isDigit (c : Nat) : Bool := 48 ≤ c && c ≤ 57

/-- Numeric value of a digit run (most significant first). -/
def digitsVal (ds : List Nat) : Nat := ds.foldl (fun a d => a * 10 + (d - 48)) 0

/-- Parse a JSON integer (maximal digit run, optional leading minus). -/
def jsonDecInt (l : List Nat) : Option (Int × List Nat) :=
  if l.head? = some 45 then
    let rest := l.tail
    let ds := rest.takeWhile isDigit
    if ds = [] then none
    else some (-(digitsVal ds : Int), rest.dropWhile isDigit)
  else
    let ds := l.takeWhile isDigit
    if ds = [] then none
    else some ((digitsVal ds : Int), l.dropWhile isDigit)

mutual

/-- Embedding of `json.loads` on the grammar the serializer emits
(null, booleans, integers, strings with escapes, arrays, objects, with
insignificant whitespace).  `fuel` bounds the recursion; any fuel of at
least the value's `jsize` parses it. -/
def jsonDecVal : Nat → List Nat → Option (MPValue × List Nat)
  | 0, _ => none
  | fuel + 1, l =>
    match skipWs l with
    | [] => none
    | c :: rest =>
      if c = 110 then
        match rest with
        | 117 :: 108 :: 108 :: r => some (.nil, r)
        | _ => none
      else if c = 116 then
        match rest with
        | 114 :: 117 :: 101 :: r => some (.boolV true, r)
        | _ => none
      else if c = 102 then
        match rest with
        | 97 :: 108 :: 115 :: 101 :: r => some (.boolV false, r)
        | _ => none
      else if c = 34 then
        (jsonDecStrBody rest).map (fun p => (.strV p.1, p.2))
      else if c = 91 then
        match skipWs rest with
        | 93 :: r => some (.arrV [], r)
        | _ => (jsonDecElems fuel rest).map (fun p => (.arrV p.1, p.2))
      else if c = 123 then
        match skipWs rest with
        | 125 :: r => some (.mapV [], r)
        | _ => (jsonDecEntries fuel rest).map (fun p => (.mapV p.1, p.2))
      else
        (jsonDecInt (c :: rest)).map (fun p => (.intV p.1, p.2))

/-- Parse the elements of a non-empty JSON array body up to `]`. -/
def jsonDecElems : Nat → List Nat → Option (List MPValue × List Nat)
  | 0, _ => none
  | fuel + 1, l =>
      match jsonDecVal fuel l with
      | none => none
      | some (v, r) =>
        match skipWs r with
        | 44 :: r2 =>
          (match jsonDecElems fuel r2 with
           | none => none
           | some (vs, r3) => some (v :: vs, r3))
        | 93 :: r2 => some ([v], r2)
        | _ => none

/-- Parse the entries of a non-empty JSON object body up to the closing
brace. -/
def jsonDecEntries : Nat → List Nat →
    Option (List (List Nat × MPValue) × List Nat)
  | 0, _ => none
  | fuel + 1, l =>
      match skipWs l with
      | 34 :: r =>
        (match jsonDecStrBody r with
         | none => none
         | some (k, r2) =>
           match skipWs r2 with
           | 58 :: r3 =>
             (match jsonDecVal fuel r3 with
              | none => none
              | some (v, r4) =>
                match skipWs r4 with
                | 44 :: r5 =>
                  (match jsonDecEntries fuel r5 with
                   | none => none
                   | some (kvs, r6) => some ((k, v) :: kvs, r6))
                | 125 :: r5 => some ([(k, v)], r5)
                | _ => none)
           | _ => none)
      | _ => none

end

/-- `ProtocolHandler.serialize`: schema-independent byte rendering in
the selected format; `none` models the `ProtocolException` raised for a
value outside the embedded domain. -/
def serialize (use_msgpack : Bool) (data : MPValue) : Option (List Nat) :=
  if wfValue data then some (if use_msgpack then mpEnc data else jsonEnc data)
  else none

/-- Mapping test (`isinstance(result, dict)`). -/
def isMapV : MPValue → Bool
  | .mapV _ => true
  | _ => false

/-- Complete-input MessagePack decode (`unpackb` rejects trailing
bytes). -/
def mpDecodeFull (bytes : List Nat) : Option MPValue :=
  match mpDec (2 * bytes.length + 2) bytes with
  | some (v, []) => some v
  | _ => none

/-- Complete-input JSON decode (`json.loads` rejects trailing non-space
input). -/
def jsonDecodeFull (bytes : List Nat) : Option MPValue :=
  match jsonDecVal (2 * bytes.length + 2) bytes with
  | some (v, r) => if skipWs r = [] then some v else none
  | _ => none

/-- `ProtocolHandler.deserialize`: decode in the selected format, then
require a mapping. -/
def deserialize (use_msgpack : Bool) (bytes : List Nat) : Option MPValue :=
  match (if use_msgpack then mpDecodeFull bytes else jsonDecodeFull bytes) with
  | none => none
  | some v => if isMapV v then some v else none

/-! ### Message schemas (protocol.py, MESSAGE_SCHEMAS)

Each descriptor of the schema table becomes one checker; `jsonschema`
semantics for the constructs used: `required`, `properties` bounds,
`const`, type unions, and `additionalProperties: false` as a
keys-subset check.  String length constraints apply to strings only. -/

/-- Field lookup in a message mapping. -/
def mlookup (k : List Nat) : List (List Nat × MPValue) → Option MPValue
  | [] => none
  | (k', v) :: rest => if k = k' then some v else mlookup k rest

/-- String with length in the inclusive range. -/
def strLenBetween (lo hi : Nat) : MPValue → Bool
  | .strV s => decide (lo ≤ s.length ∧ s.length ≤ hi)
  | _ => false

/-- Integer within the inclusive range. -/
def intBetween (lo hi : Int) : MPValue → Bool
  | .intV n => decide (lo ≤ n ∧ n ≤ hi)
  | _ => false

/-- Schema `{"type": ["string", "integer"], "minLength": 1,
"maxLength": 100}`: the length bounds constrain strings only. -/
def isStrOrIntId (lo hi : Nat) : MPValue → Bool
  | .strV s => decide (lo ≤ s.length ∧ s.length ≤ hi)
  | .intV _ => true
  | _ => false

/-- Schema `{"type": ["string", "integer"]}` with no bounds. -/
def isStrOrInt : MPValue → Bool
  | .strV _ => true
  | .intV _ => true
  | _ => false

/-- Boolean test. -/
def isBoolV : MPValue → Bool
  | .boolV _ => true
  | _ => false

/-- Number test (floats are outside the embedded domain, so numbers are
integers here). -/
def isNumV : MPValue → Bool
  | .intV _ => true
  | _ => false

/-- `additionalProperties: false`: every present key is declared. -/
def keysSub (kvs : List (List Nat × MPValue)) (allowed : List (List Nat)) :
    Bool :=
  kvs.all (fun kv => kv.1 ∈ allowed)

/-- Optional property: absent, or satisfying the given check. -/
def optProp (k : List Nat) (kvs : List (List Nat × MPValue))
    (check : MPValue → Bool) : Bool :=
  match mlookup k kvs with
  | none => true
  | some v => check v

/-- Required property. -/
def reqProp (k : List Nat) (kvs : List (List Nat × MPValue))
    (check : MPValue → Bool) : Bool :=
  match mlookup k kvs with
  | none => false
  | some v => check v

/-- The `base` descriptor. -/
def checkBase (kvs : List (List Nat × MPValue)) : Bool :=
  reqProp (strB "type") kvs (strLenBetween 1 50) &&
  reqProp (strB "id") kvs (isStrOrIntId 1 100) &&
  optProp (strB "data") kvs isMapV &&
  keysSub kvs [strB "type", strB "id", strB "data"]

/-- `const` string property. -/
def isConstStr (s : List Nat) : MPValue → Bool
  | .strV t => decide (t = s)
  | _ => false

/-- The `authenticate` descriptor. -/
def checkAuthenticate (kvs : List (List Nat × MPValue)) : Bool :=
  reqProp (strB "type") kvs (isConstStr (strB "authenticate")) &&
  reqProp (strB "id") kvs isStrOrInt &&
  reqProp (strB "data") kvs (fun d =>
    match d with
    | .mapV dkvs =>
        reqProp (strB "token") dkvs (strLenBetween 16 256) &&
        keysSub dkvs [strB "token"]
    | _ => false) &&
  keysSub kvs [strB "type", strB "id", strB "data"]

/-- The `execute_code` descriptor. -/
def checkExecuteCode (kvs : List (List Nat × MPValue)) : Bool :=
  reqProp (strB "type") kvs (isConstStr (strB "execute_code")) &&
  reqProp (strB "id") kvs isStrOrInt &&
  reqProp (strB "data") kvs (fun d =>
    match d with
    | .mapV dkvs =>
        reqProp (strB "code") dkvs (strLenBetween 1 102400) &&
        keysSub dkvs [strB "code"]
    | _ => false) &&
  keysSub kvs [strB "type", strB "id", strB "data"]

/-- The `list_layers` descriptor (`data` is optional). -/
def checkListLayers (kvs : List (List Nat × MPValue)) : Bool :=
  reqProp (strB "type") kvs (isConstStr (strB "list_layers")) &&
  reqProp (strB "id") kvs isStrOrInt &&
  optProp (strB "data") kvs (fun d =>
    match d with
    | .mapV dkvs =>
        optProp (strB "offset") dkvs (intBetween 0 10000) &&
        optProp (strB "limit") dkvs (intBetween 1 100) &&
        keysSub dkvs [strB "offset", strB "limit"]
    | _ => false) &&
  keysSub kvs [strB "type", strB "id", strB "data"]

/-- The `get_features` descriptor (the `bbox` sub-descriptor has
`required` corners but no `additionalProperties` restriction). -/
def checkGetFeatures (kvs : List (List Nat × MPValue)) : Bool :=
  reqProp (strB "type") kvs (isConstStr (strB "get_features")) &&
  reqProp (strB "id") kvs isStrOrInt &&
  reqProp (strB "data") kvs (fun d =>
    match d with
    | .mapV dkvs =>
        reqProp (strB "layer_id") dkvs (strLenBetween 1 256) &&
        optProp (strB "limit") dkvs (intBetween 1 10000) &&
        optProp (strB "bbox") dkvs (fun b =>
          match b with
          | .mapV bkvs =>
              reqProp (strB "xmin") bkvs isNumV &&
              reqProp (strB "ymin") bkvs isNumV &&
              reqProp (strB "xmax") bkvs isNumV &&
              reqProp (strB "ymax") bkvs isNumV
          | _ => false) &&
        optProp (strB "filter_expression") dkvs (strLenBetween 0 10000) &&
        optProp (strB "attributes_only") dkvs isBoolV &&
        optProp (strB "simplify_tolerance") dkvs (intBetween 0 1000) &&
        keysSub dkvs
          [strB "layer_id", strB "limit", strB "bbox",
           strB "filter_expression", strB "attributes_only",
           strB "simplify_tolerance"]
    | _ => false) &&
  keysSub kvs [strB "type", strB "id", strB "data"]

/-- The `load_layer` descriptor. -/
def checkLoadLayer (kvs : List (List Nat × MPValue)) : Bool :=
  reqProp (strB "type") kvs (isConstStr (strB "load_layer")) &&
  reqProp (strB "id") kvs isStrOrInt &&
  reqProp (strB "data") kvs (fun d =>
    match d with
    | .mapV dkvs =>
        reqProp (strB "path") dkvs (strLenBetween 1 4096) &&
        optProp (strB "layer_name") dkvs (strLenBetween 0 256) &&
        keysSub dkvs [strB "path", strB "layer_name"]
    | _ => false) &&
  keysSub kvs [strB "type", strB "id", strB "data"]

/-- The `response` descriptor (its `data` union covers every value of
the embedded domain). -/
def checkResponse (kvs : List (List Nat × MPValue)) : Bool :=
  reqProp (strB "type") kvs (isConstStr (strB "response")) &&
  reqProp (strB "id") kvs isStrOrInt &&
  reqProp (strB "success") kvs isBoolV &&
  optProp (strB "error") kvs (strLenBetween 0 1000) &&
  keysSub kvs
    [strB "type", strB "id", strB "success", strB "data", strB "error"]

/-- Schema dispatch of `validate_message`: the `type` value selects a
known descriptor, anything else falls back to `base` (a non-string
`type` also falls back, and then fails `base`'s string requirement). -/
def schemaCheck (m : MPValue) : Bool :=
  match m with
  | .mapV kvs =>
      match mlookup (strB "type") kvs with
      | some (.strV t) =>
          if t = strB "authenticate" then checkAuthenticate kvs
          else if t = strB "execute_code" then checkExecuteCode kvs
          else if t = strB "list_layers" then checkListLayers kvs
          else if t = strB "get_features" then checkGetFeatures kvs
          else if t = strB "load_layer" then checkLoadLayer kvs
          else if t = strB "response" then checkResponse kvs
          else checkBase kvs
      | some _ => checkBase kvs
      | none => false
  | _ => false

/-- `ProtocolHandler.validate_message`: a no-op when schema validation
is off; otherwise the presence gates for `type` and `id`, then the
table-driven schema. -/
def validate_message (validate_schema : Bool) (m : MPValue) : Bool :=
  if ¬ validate_schema then true
  else
    match m with
    | .mapV kvs =>
        (mlookup (strB "type") kvs).isSome &&
        (mlookup (strB "id") kvs).isSome &&
        schemaCheck m
    | _ => false

/-- `ProtocolHandler.MAX_MESSAGE_SIZE` (10 MiB). -/
def MAX_MESSAGE_SIZE : Nat := 10 * 1024 * 1024

/-- `ProtocolHandler.HEADER_SIZE`. -/
def HEADER_SIZE : Nat := 4

/-- `ProtocolHandler.pack_message`: validate, serialize, enforce the
payload size cap, and prepend the big-endian length header; `none`
models the raised `ProtocolException`. -/
def pack_message (use_msgpack validate_schema : Bool) (m : MPValue) :
    Option (List Nat) :=
  if validate_message validate_schema m then
    match serialize use_msgpack m with
    | none => none
    | some message_bytes =>
        if message_bytes.length > MAX_MESSAGE_SIZE then none
        else some (be32 message_bytes.length ++ message_bytes)
  else none

/-- `ProtocolException` cases reachable in the buffered reader. -/
inductive ProtoErr where
  | bufferOverflow
  | oversizeMessage
  | zeroLength
  | deserializeFailed
  | schemaFailed
  deriving DecidableEq, Repr

/-- `BufferedProtocolHandler` state: configuration flags, accumulation
buffer, and the sticky parsed header value. -/
structure BufferedProtocolHandler where
  use_msgpack : Bool := true
  validate_schema : Bool := true
  buffer : List Nat := []
  expected_message_size : Option Nat := none

/-- `BufferedProtocolHandler.clear_buffer`. -/
def clear_buffer (h : BufferedProtocolHandler) : BufferedProtocolHandler :=
  { h with buffer := [], expected_message_size := none }

/-- `BufferedProtocolHandler.feed_data`: reject growth beyond
`MAX_MESSAGE_SIZE` (buffer unchanged, exception propagates), otherwise
append. -/
def feed_data (h : BufferedProtocolHandler) (data : List Nat) :
    Option ProtoErr × BufferedProtocolHandler :=
  if h.buffer.length + data.length > MAX_MESSAGE_SIZE then
    (some .bufferOverflow, h)
  else (none, { h with buffer := h.buffer ++ data })

/-- Result of `try_read_message`: `None`, a message, or a raised
`ProtocolException`. -/
inductive TryRead where
  | nothing
  | message (m : MPValue)
  | protoError (e : ProtoErr)

/-- Completion step of `try_read_message` once the expected size `sz` is
known: wait for the full frame, then split off the payload, reset the
header state, deserialize and re-validate. -/
def tryReadBody (h : BufferedProtocolHandler) (sz : Nat) :
    TryRead × BufferedProtocolHandler :=
  let total := HEADER_SIZE + sz
  if h.buffer.length < total then
    (.nothing, { h with expected_message_size := some sz })
  else
    let message_data := (h.buffer.drop HEADER_SIZE).take sz
    let h' : BufferedProtocolHandler :=
      { h with buffer := h.buffer.drop total, expected_message_size := none }
    match deserialize h.use_msgpack message_data with
    | none => (.protoError .deserializeFailed, h')
    | some msg =>
        if validate_message h.validate_schema msg then (.message msg, h')
        else (.protoError .schemaFailed, h')

/-- `BufferedProtocolHandler.try_read_message`: below four buffered
bytes there is nothing to do; otherwise the header is read (once) and
validated, and the completion step runs. -/
def try_read_message (h : BufferedProtocolHandler) :
    TryRead × BufferedProtocolHandler :=
  if h.buffer.length < HEADER_SIZE then (.nothing, h)
  else
    match h.expected_message_size with
    | some sz => tryReadBody h sz
    | none =>
        match h.buffer with
        | a :: b :: c :: d :: _ =>
            let sz := rd32 a b c d
            if sz > MAX_MESSAGE_SIZE then
              (.protoError .oversizeMessage, clear_buffer h)
            else if sz = 0 then (.protoError .zeroLength, clear_buffer h)
            else tryReadBody h sz
        | _ => (.nothing, h)

/-- Pack a message and push the produced frame back through a fresh
buffered reader, as the round-trip property reads: the parsed message,
or `none` when any stage refuses. -/
def bufferedRoundtrip (use_msgpack validate_schema : Bool) (m : MPValue) :
    Option MPValue :=
  match pack_message use_msgpack validate_schema m with
  | none => none
  | some bs =>
      let h0 : BufferedProtocolHandler :=
        { use_msgpack := use_msgpack, validate_schema := validate_schema }
      match feed_data h0 bs with
      | (some _, _) => none
      | (none, h1) =>
          match try_read_message h1 with
          | (.message msg, _) => some msg
          | _ => none

/-- Feed a list of chunks in order, attempting `try_read_message` after
each feed; a feed-time exception ends the run. -/
def feedAndTryAll (h : BufferedProtocolHandler) :
    List (List Nat) → List TryRead × BufferedProtocolHandler
  | [] => ([], h)
  | chunk :: rest =>
      match feed_data h chunk with
      | (some e, h1) => ([.protoError e], h1)
      | (none, h1) =>
          let (r, h2) := try_read_message h1
          let (rs, h3) := feedAndTryAll h2 rest
          (r :: rs, h3)

/-- Messages among a run of `try_read_message` results. -/
def messagesOf : List TryRead → List MPValue
  | [] => []
  | .message m :: rest => m :: messagesOf rest
  | _ :: rest => messagesOf rest

/-- Errors among a run of `try_read_message` results. -/
def errorsOf : List TryRead → List ProtoErr
  | [] => []
  | .protoError e :: rest => e :: errorsOf rest
  | _ :: rest => errorsOf rest

/-! ### Size measures used as decoder fuel bounds -/

mutual

/-- Fuel needed by `mpDec` for a value. -/
def msize : MPValue → Nat
  | .nil => 1
  | .boolV _ => 1
  | .intV _ => 1
  | .strV _ => 1
  | .arrV xs => 1 + mlsize xs
  | .mapV kvs => 1 + mpsize kvs

/-- Fuel needed by `mpDecList` for an array body. -/
def mlsize : List MPValue → Nat
  | [] => 0
  | x :: xs => 1 + msize x + mlsize xs

/-- Fuel needed by `mpDecPairs` for a map body. -/
def mpsize : List (List Nat × MPValue) → Nat
  | [] => 0
  | (_, v) :: rest => 2 + msize v + mpsize rest

end

mutual

/-- Fuel needed by `jsonDecVal` for a value. -/
def jsize : MPValue → Nat
  | .nil => 1
  | .boolV _ => 1
  | .intV _ => 1
  | .strV _ => 1
  | .arrV xs => 1 + jesize xs
  | .mapV kvs => 1 + jpsize kvs

/-- Fuel needed by `jsonDecElems` for an array body. -/
def jesize : List MPValue → Nat
  | [] => 0
  | x :: xs => 1 + jsize x + jesize xs

/-- Fuel needed by `jsonDecEntries` for an object body. -/
def jpsize : List (List Nat × MPValue) → Nat
  | [] => 0
  | (_, v) :: rest => 1 + jsize v + jpsize rest

end

/-! ### Concrete instances used by the claim theorems -/

/-- Syntax tree of `from qgis.core import QgsProject`. -/
def importQgsProjectAst : PyAst :=
  .module [.importFrom (some "qgis.core") [.aliasNode "QgsProject"]]

/-- The source string `from qgis.core import QgsProject` (32
characters) as seen by `validate_code`. -/
def importQgsProjectCode : PyCode := ⟨32, some importQgsProjectAst⟩

/-- Sequential `check_rate_limit` calls at the given clock values,
collecting the outcomes. -/
def runChecks (rl : ImprovedRateLimiter) (c op : String) :
    List Int → ImprovedRateLimiter × List RLOutcome
  | [] => (rl, [])
  | t :: ts =>
      let (o, rl') := check_rate_limit rl t c op
      let (rlf, os) := runChecks rl' c op ts
      (rlf, o :: os)

/-- Limiter state mid-window: the client's `normal` key holds the given
timestamps and nothing else is tracked. -/
def rlWindow (c : String) (done : List Int) : ImprovedRateLimiter :=
  { request_history := [(c ++ ":" ++ "normal", done)] }

/-- Four failed authentications for client `c` at clocks 0 to 3. -/
def rlFail4 : ImprovedRateLimiter :=
  record_failed_auth (record_failed_auth
    (record_failed_auth (record_failed_auth {} 0 "c") 1 "c") 2 "c") 3 "c"

/-- Fifth failed authentication at clock 4, which installs the first
lockout. -/
def rlFail5 : ImprovedRateLimiter := record_failed_auth rlFail4 4 "c"

/-- An executor whose operation is `running`. -/
def exRunning : AsyncCommandExecutor :=
  { request_id := "op1", command_type := "execute_code",
    result_obj := { request_id := "op1", status := .running, start_time := 0 } }

/-- A manager tracking one running operation (default cap 10). -/
def mgrRunning : AsyncOperationManager := { operations := [("op1", exRunning)] }

/-- A manager at its concurrency cap: cap 1, one running operation. -/
def mgrFull : AsyncOperationManager :=
  { max_concurrent := 1, operations := [("op1", exRunning)] }

/-- A minimal schema-valid message (unknown type, so the `base`
descriptor applies). -/
def pingMsg : MPValue :=
  .mapV [(strB "type", .strV (strB "ping")), (strB "id", .strV (strB "1"))]

/-- The MessagePack frame `pack_message` produces for `pingMsg`. -/
def pingFrame : List Nat := (pack_message true true pingMsg).getD []

/-- The JSON frame `pack_message` produces for `pingMsg`. -/
def pingFrameJson : List Nat := (pack_message false true pingMsg).getD []

/-- A schema-valid message (unknown type, `base` descriptor) whose
MessagePack payload is exactly `MAX_MESSAGE_SIZE` bytes: the framed
bytes then exceed the buffer cap by the four header bytes. -/
def bigMsg : MPValue :=
  .mapV [(strB "type", .strV (strB "custom")),
         (strB "id", .strV (strB "1")),
         (strB "data", .mapV [(strB "k", .strV (List.replicate 10485729 97))])]

/-! ## Association-list facts -/

theorem alookup_aupdate_self {β : Type} (k : String) (v : β)
    (l : List (String × β)) : alookup k (aupdate k v l) = some v := by
  induction l with
  | nil => simp [aupdate, alookup]
  | cons hd tl ih =>
      obtain ⟨k', v'⟩ := hd
      by_cases h : k = k'
      · simp [aupdate, h, alookup]
      · simp [aupdate, h, alookup, ih]

theorem alookup_aerase_self {β : Type} (k : String)
    (l : List (String × β)) : alookup k (aerase k l) = none := by
  induction l with
  | nil => simp [aerase, alookup]
  | cons hd tl ih =>
      obtain ⟨k', v'⟩ := hd
      by_cases h : k' = k
      · simpa [aerase, h] using ih
      · have : k ≠ k' := fun hk => h hk.symm
        simpa [aerase, h, alookup, this] using ih

/-! ## C1 -/

/-- C1: the claim reads `validate_code` as rejecting an import exactly
when its module or imported symbol is off the per-module allow-list or
it is a wildcard.  On `from qgis.core import QgsProject` the module and
the symbol are both allow-listed and the import-specific validator
accepts, yet `validate_code` rejects the statement at the node-kind
gate, because `ast.ImportFrom` is missing from `ALLOWED_NODES` (as are
`ast.Import` and `ast.alias`), contradicting the repository's own test
`test_specific_qgis_import_allowed`. -/
theorem c1_allowed_import_rejected_at_node_gate :
    validateImport (.importFrom (some "qgis.core") [.aliasNode "QgsProject"])
      = .ok () ∧
    (alookup "qgis.core" ALLOWED_MODULES).isSome = true ∧
    "QgsProject" ∈ (alookup "qgis.core" ALLOWED_MODULES).getD [] ∧
    (PyNodeKind.importFromK ∈ ALLOWED_NODES ↔ False) ∧
    (PyNodeKind.importK ∈ ALLOWED_NODES ↔ False) ∧
    validate_code {} importQgsProjectCode
      = .error (.disallowedOperation .importFromK) := by
  refine ⟨rfl, rfl, ?_, ?_, ?_, rfl⟩ <;> decide

/-! ## C9 -/

/-- C9: sandbox validation is a pure function of its input: it returns
without touching the sandbox state, a repeated call on the unchanged
state returns the same decision, and the decision does not depend on
the unrelated `timeout_seconds` configuration. -/
theorem c9_validate_code_pure (sb : ImprovedCodeSandbox) (code : PyCode) :
    (validate_code_run sb code).2 = sb ∧
    (validate_code_run (validate_code_run sb code).2 code).1
      = (validate_code_run sb code).1 ∧
    ∀ t t' : Nat,
      validate_code ⟨sb.max_code_length, t⟩ code
        = validate_code ⟨sb.max_code_length, t'⟩ code :=
  ⟨rfl, rfl, fun _ _ => rfl⟩

/-! ## C2 -/

/-- C2 counterexample: a `ping` from a not-yet-authenticated client
while authentication is mandatory is answered `Authentication required`
by the early return that precedes the rate-limit gate, and the rate
limiter comes back unchanged with an empty history — no slot of the
`cheap` budget is consumed, contrary to the claim. -/
theorem c2_counterexample_no_slot_before_auth :
    (process_message true ["ping"] {} 0 "client" "ping" false).1
      = .authRequired ∧
    (process_message true ["ping"] {} 0 "client" "ping" false).2
      = ({} : ImprovedRateLimiter) ∧
    ({} : ImprovedRateLimiter).request_history = [] :=
  ⟨rfl, rfl, rfl⟩

/-- C2 amended: a message rejected by the mandatory-authentication gate
consumes no rate budget (the limiter is returned untouched); every
other message — in particular every `authenticate` message — is passed
through `check_rate_limit` for its operation class, and an
`authenticate` message from an unauthenticated client on a fresh
limiter records exactly one slot in the `authentication` window. -/
theorem c2_amended_slot_policy (require_auth authd : Bool)
    (handlers : List String) (rl : ImprovedRateLimiter) (now : Int)
    (client msg_type : String) :
    (require_auth = true → authd = false → msg_type ≠ "authenticate" →
       process_message require_auth handlers rl now client msg_type authd
         = (.authRequired, rl)) ∧
    (¬ (require_auth = true ∧ authd = false ∧ msg_type ≠ "authenticate") →
       (process_message require_auth handlers rl now client msg_type authd).2
         = (check_rate_limit rl now client (get_operation_type msg_type)).2) ∧
    (process_message true handlers {} now client "authenticate" false).2.request_history
      = [(client ++ ":" ++ "authentication", [now])] := by
  refine ⟨?_, ?_, ?_⟩
  · intro h1 h2 h3
    simp [process_message, h1, h2, h3]
  · intro h
    have hneg : ¬ ((require_auth = true) ∧ ¬ (authd = true) ∧
        ¬ (msg_type = "authenticate")) := by
      intro ⟨ha, hb, hc⟩
      exact h ⟨ha, by simpa using hb, hc⟩
    rw [process_message, if_neg (by simpa using hneg)]
    rcases hcr : check_rate_limit rl now client (get_operation_type msg_type)
      with ⟨o, rl'⟩
    cases o with
    | lockedOut r => simp
    | limited => simp
    | allowed => by_cases hh : msg_type ∈ handlers <;> simp [hh]
  · rw [process_message]
    rw [if_neg (by simp)]
    have hcr : check_rate_limit {} now client (get_operation_type "authenticate")
        = (.allowed,
           { request_history := [(client ++ ":" ++ "authentication", [now])] }) :=
      rfl
    rw [hcr]
    by_cases hh : "authenticate" ∈ handlers <;> simp [hh]

/-- C2 amended, witnessed: the auth-gate rejection at a concrete
unauthenticated `ping`, and the pass-through at a concrete
authenticated `list_layers`. -/
theorem c2_amended_witness :
    process_message true ["ping"] {} 0 "cl" "ping" false
      = (.authRequired, {}) ∧
    (process_message true ["list_layers"] {} 9 "cl" "list_layers" true).2
      = (check_rate_limit {} 9 "cl" (get_operation_type "list_layers")).2 ∧
    (process_message true ["authenticate"] {} 2 "cl" "authenticate" false).2.request_history
      = [("cl" ++ ":" ++ "authentication", [2])] :=
  ⟨(c2_amended_slot_policy true false ["ping"] {} 0 "cl" "ping").1 rfl rfl
     (by decide),
   (c2_amended_slot_policy true true ["list_layers"] {} 9 "cl"
     "list_layers").2.1 (by simp),
   (c2_amended_slot_policy true false ["authenticate"] {} 2 "cl"
     "authenticate").2.2⟩

/-! ## C10 -/

/-- C10: for a request id absent from the operation table, `get_status`
returns `None` and `cancel_operation` returns `False`, and the manager
state (in particular the table) is left untouched. -/
theorem c10_unknown_id_is_noop (m : AsyncOperationManager) (now : Int)
    (id : String) (h : alookup id m.operations = none) :
    get_status m id = none ∧ cancel_operation m now id = (false, m) := by
  constructor
  · simp [get_status, h]
  · simp [cancel_operation, h]

/-- C10 witness: the empty manager and an arbitrary id. -/
theorem c10_witness :
    alookup "nope" (AsyncOperationManager.operations {}) = none ∧
    (get_status {} "nope" = none ∧
     cancel_operation {} 3 "nope" = (false, {})) :=
  ⟨rfl, c10_unknown_id_is_noop {} 3 "nope" rfl⟩

/-! ## C7 -/

theorem cancel_false_of_dead (m : AsyncOperationManager) (now : Int)
    (id : String) (ex : AsyncCommandExecutor)
    (h : alookup id m.operations = some ex)
    (h1 : ex.result_obj.status ≠ .pending)
    (h2 : ex.result_obj.status ≠ .running) :
    (cancel_operation m now id).1 = false := by
  simp [cancel_operation, h, h1, h2]

/-- C7: `cancel_operation` returns `True` exactly when the id is
tracked with status `pending` or `running` at call time; cancelling a
running operation marks it `cancelled` (cooperative flag set, end time
recorded), after which any further cancel of the same id returns
`False`. -/
theorem c7_cancel_true_iff_live (m : AsyncOperationManager) (now : Int)
    (id : String) :
    ((cancel_operation m now id).1 = true ↔
       ∃ ex, alookup id m.operations = some ex ∧
         (ex.result_obj.status = .pending ∨ ex.result_obj.status = .running)) ∧
    (∀ ex, alookup id m.operations = some ex →
       ex.result_obj.status = .running →
         (cancel_operation m now id).1 = true ∧
         alookup id (cancel_operation m now id).2.operations
           = some (executorCancel ex now) ∧
         ∀ now2 : Int,
           (cancel_operation (cancel_operation m now id).2 now2 id).1 = false) := by
  rcases h : alookup id m.operations with _ | ex
  · refine ⟨?_, ?_⟩
    · have hc : cancel_operation m now id = (false, m) := by
        simp [cancel_operation, h]
      rw [hc]
      constructor
      · intro hfalse; exact absurd hfalse (by simp)
      · rintro ⟨ex', hex', _⟩
        cases hex'
    · intro ex0 hex0 _
      cases hex0
  · by_cases hs : ex.result_obj.status = .pending ∨
        ex.result_obj.status = .running
    · have hc : cancel_operation m now id = (true, { m with operations := aupdate id (executorCancel ex now) m.operations }) := by
        simp [cancel_operation, h, hs]
      refine ⟨?_, ?_⟩
      · rw [hc]
        exact ⟨fun _ => ⟨ex, rfl, hs⟩, fun _ => rfl⟩
      · intro ex0 hex0 hrun0
        injection hex0 with he
        subst he
        refine ⟨by rw [hc], by rw [hc]; exact alookup_aupdate_self .., ?_⟩
        intro now2
        rw [hc]
        exact cancel_false_of_dead _ now2 id (executorCancel ex now)
          (alookup_aupdate_self ..) (by simp [executorCancel])
          (by simp [executorCancel])
    · have hc : cancel_operation m now id = (false, m) := by
        simp only [cancel_operation, h, if_neg hs]
      refine ⟨?_, ?_⟩
      · rw [hc]
        constructor
        · intro hfalse; exact absurd hfalse (by simp)
        · rintro ⟨ex', hex', hs'⟩
          injection hex' with he
          subst he
          exact absurd hs' hs
      · intro ex0 hex0 hrun0
        injection hex0 with he
        subst he
        exact absurd (Or.inr hrun0) hs

/-- C7 witness: a concrete manager with one running operation. -/
theorem c7_witness :
    (alookup "op1" mgrRunning.operations = some exRunning ∧
     exRunning.result_obj.status = .running) ∧
    (cancel_operation mgrRunning 5 "op1").1 = true ∧
    (cancel_operation (cancel_operation mgrRunning 5 "op1").2 7 "op1").1
      = false :=
  ⟨⟨rfl, rfl⟩,
   ((c7_cancel_true_iff_live mgrRunning 5 "op1").2 exRunning rfl rfl).1,
   ((c7_cancel_true_iff_live mgrRunning 5 "op1").2 exRunning rfl rfl).2.2 7⟩

/-! ## C8 -/

/-- C8: `start_operation` rejects a duplicate id; with a fresh id it
rejects with the capacity error whenever the number of running
operations has reached `max_concurrent`; otherwise it returns the new
operation in `pending` state, and the first step of its dedicated
worker moves it to `running`. -/
theorem c8_start_operation_gates (m : AsyncOperationManager) (now : Int)
    (id ct : String) (tmo : Option Int) :
    ((alookup id m.operations).isSome →
       start_operation m now id ct tmo = .error .alreadyExists) ∧
    (alookup id m.operations = none →
       runningCount m ≥ m.max_concurrent →
         start_operation m now id ct tmo = .error .tooManyConcurrent) ∧
    (alookup id m.operations = none →
       runningCount m < m.max_concurrent →
         ∃ m' : AsyncOperationManager,
           start_operation m now id ct tmo
             = .ok (m', { request_id := id, start_time := now }) ∧
           (get_status m' id).map (fun r => r.status) = some .pending ∧
           (get_status (workerRunEntry m' id) id).map (fun r => r.status)
             = some .running) := by
  refine ⟨?_, ?_, ?_⟩
  · intro h
    simp only [start_operation, h, if_pos]
    rfl
  · intro h hcap
    simp only [start_operation, h, Option.isSome_none, Bool.false_eq_true,
      if_false, ge_iff_le, if_pos hcap]
    rfl
  · intro h hcap
    refine ⟨{ m with operations := aupdate id { request_id := id, command_type := ct, timeout := tmo.getD 300, result_obj := { request_id := id, start_time := now } } m.operations }, ?_, ?_, ?_⟩
    · simp [start_operation, h, Nat.not_le.mpr hcap]
      rfl
    · simp [get_status, alookup_aupdate_self]
    · simp [workerRunEntry, get_status, alookup_aupdate_self, executorRunEntry]

/-- C8 witness: a manager with cap 1 and one running operation rejects
a second submission with the capacity error, while the empty manager
accepts one and its worker step runs it. -/
theorem c8_witness :
    (alookup "op2" mgrFull.operations = none ∧
     runningCount mgrFull ≥ mgrFull.max_concurrent ∧
     start_operation mgrFull 1 "op2" "load_layer" none
       = .error .tooManyConcurrent) ∧
    (alookup "op9" (AsyncOperationManager.operations {}) = none ∧
     runningCount {} < AsyncOperationManager.max_concurrent {} ∧
     ∃ m' : AsyncOperationManager,
       start_operation {} 2 "op9" "load_layer" none
         = .ok (m', { request_id := "op9", start_time := 2 }) ∧
       (get_status m' "op9").map (fun r => r.status) = some .pending ∧
       (get_status (workerRunEntry m' "op9") "op9").map (fun r => r.status)
         = some .running) :=
  ⟨⟨rfl, by decide,
    (c8_start_operation_gates mgrFull 1 "op2" "load_layer" none).2.1 rfl
      (by decide)⟩,
   ⟨rfl, by decide,
    (c8_start_operation_gates {} 2 "op9" "load_layer" none).2.2 rfl
      (by decide)⟩⟩

/-! ## C3 -/

/-- C3: once the retained failure count reaches 5, `record_failed_auth`
installs a lockout of `min(3600, 60 * 2^(count-5))` seconds from now;
while a lockout is unexpired `check_rate_limit` raises for every
operation class, leaving the limiter untouched; `record_successful_auth`
removes both the failure record and the lockout. -/
theorem c3_lockout_lifecycle (rl : ImprovedRateLimiter) (now now' : Int)
    (client op : String) :
    ((5 ≤ (((alookup client rl.failed_auth_attempts).getD []).filter
          (fun t => t > now - 3600) ++ [now]).length) →
       alookup client (record_failed_auth rl now client).lockouts
         = some (now + min (60 * 60)
             (60 * 2 ^ ((((alookup client rl.failed_auth_attempts).getD
                []).filter (fun t => t > now - 3600) ++ [now]).length - 5)))) ∧
    (∀ u : Int, alookup client rl.lockouts = some u → now' < u →
       check_rate_limit rl now' client op = (.lockedOut (u - now'), rl)) ∧
    (alookup client (record_successful_auth rl client).failed_auth_attempts
        = none ∧
     alookup client (record_successful_auth rl client).lockouts = none) := by
  refine ⟨?_, ?_, ?_, ?_⟩
  · intro h
    simp only [record_failed_auth, if_pos h]
    exact alookup_aupdate_self ..
  · intro u hu hlt
    simp [check_rate_limit, hu, hlt]
  · exact alookup_aerase_self ..
  · exact alookup_aerase_self ..

/-- C3 witness: failures for client `c` at clocks 0-4; the fifth
installs a 60-second lockout expiring at 64, `expensive` traffic at
clock 10 is refused with 54 seconds remaining, and a successful
authentication clears both records. -/
theorem c3_witness :
    (5 ≤ (((alookup "c" rlFail4.failed_auth_attempts).getD []).filter
        (fun t => t > (4 : Int) - 3600) ++ [4]).length ∧
     alookup "c" rlFail5.lockouts = some 64) ∧
    (alookup "c" rlFail5.lockouts = some 64 ∧ (10 : Int) < 64 ∧
     check_rate_limit rlFail5 10 "c" "expensive"
       = (.lockedOut 54, rlFail5)) ∧
    (alookup "c" (record_successful_auth rlFail5 "c").failed_auth_attempts
        = none ∧
     alookup "c" (record_successful_auth rlFail5 "c").lockouts = none) :=
  ⟨⟨by decide,
    (c3_lockout_lifecycle rlFail4 4 0 "c" "normal").1 (by decide)⟩,
   ⟨rfl, by decide,
    (c3_lockout_lifecycle rlFail5 0 10 "c" "expensive").2.1 64 rfl
      (by decide)⟩,
   (c3_lockout_lifecycle rlFail5 0 0 "c" "normal").2.2⟩

/-! ## C4 -/

theorem check_first (c : String) (t : Int) :
    check_rate_limit {} t c "normal" = (.allowed, rlWindow c [t]) := rfl

theorem check_step (c : String) (done : List Int) (t : Int)
    (hkeep : ∀ x ∈ done, t - 60 < x) (hlen : done.length < 30) :
    check_rate_limit (rlWindow c done) t c "normal"
      = (.allowed, rlWindow c (done ++ [t])) := by
  have h0 : check_rate_limit (rlWindow c done) t c "normal"
      = checkRateBody (rlWindow c done) t c "normal" := rfl
  rw [h0, checkRateBody]
  have hlim : alookup "normal" (rlWindow c done).limits
      = some ((30 : Nat), (60 : Nat)) := rfl
  rw [hlim]
  simp only [alookup, if_pos rfl, if_true, Option.getD_some, Nat.cast_ofNat]
  have hfilter : done.filter (fun x => x > t - 60) = done :=
    List.filter_eq_self.mpr (fun x hx => by simpa using hkeep x hx)
  rw [hfilter]
  rw [if_neg (by omega)]
  simp only [aupdate, if_pos rfl]
  rfl

theorem check_step_full (c : String) (done : List Int) (t : Int)
    (hkeep : ∀ x ∈ done, t - 60 < x) (hlen : 30 ≤ done.length) :
    check_rate_limit (rlWindow c done) t c "normal"
      = (.limited, rlWindow c done) := by
  have h0 : check_rate_limit (rlWindow c done) t c "normal"
      = checkRateBody (rlWindow c done) t c "normal" := rfl
  rw [h0, checkRateBody]
  have hlim : alookup "normal" (rlWindow c done).limits
      = some ((30 : Nat), (60 : Nat)) := rfl
  rw [hlim]
  simp only [alookup, if_pos rfl, if_true, Option.getD_some, Nat.cast_ofNat]
  have hfilter : done.filter (fun x => x > t - 60) = done :=
    List.filter_eq_self.mpr (fun x hx => by simpa using hkeep x hx)
  rw [hfilter]
  rw [if_pos (by omega)]
  simp only [aupdate, if_pos rfl, if_true]
  rfl

theorem check_reset (c : String) (done : List Int) (u : Int)
    (hall : ∀ x ∈ done, x ≤ u - 60) :
    check_rate_limit (rlWindow c done) u c "normal"
      = (.allowed, rlWindow c [u]) := by
  have h0 : check_rate_limit (rlWindow c done) u c "normal"
      = checkRateBody (rlWindow c done) u c "normal" := rfl
  rw [h0, checkRateBody]
  have hlim : alookup "normal" (rlWindow c done).limits
      = some ((30 : Nat), (60 : Nat)) := rfl
  rw [hlim]
  simp only [alookup, if_pos rfl, if_true, Option.getD_some, Nat.cast_ofNat]
  have hfilter : done.filter (fun x => x > u - 60) = [] := by
    rw [List.filter_eq_nil_iff]
    intro x hx
    simpa using not_lt.mpr (hall x hx)
  rw [hfilter]
  rw [if_neg (by norm_num)]
  simp only [aupdate, if_pos rfl]
  rfl

theorem runChecks_in_window (c : String) (t0 : Int) :
    ∀ (todo done : List Int),
      done.length + todo.length ≤ 30 →
      (∀ x ∈ done, t0 ≤ x) → (∀ x ∈ done, x < t0 + 60) →
      (∀ x ∈ todo, t0 ≤ x) → (∀ x ∈ todo, x < t0 + 60) →
      runChecks (rlWindow c done) c "normal" todo
        = (rlWindow c (done ++ todo), List.replicate todo.length .allowed) := by
  intro todo
  induction todo with
  | nil => intro done _ _ _ _ _; simp [runChecks]
  | cons t ts ih =>
      intro done hlen hdlo hdhi htlo hthi
      have hstep : check_rate_limit (rlWindow c done) t c "normal"
          = (.allowed, rlWindow c (done ++ [t])) := by
        refine check_step c done t (fun x hx => ?_) (by simp at hlen; omega)
        have h1 : t0 ≤ x := hdlo x hx
        have h2 : t < t0 + 60 := hthi t (by simp)
        omega
      have hrec := ih (done ++ [t])
        (by simp at hlen ⊢; omega)
        (fun x hx => by
          rcases List.mem_append.mp hx with h | h
          · exact hdlo x h
          · simp at h
            have h3 := htlo t (by simp)
            omega)
        (fun x hx => by
          rcases List.mem_append.mp hx with h | h
          · exact hdhi x h
          · simp at h
            have h3 := hthi t (by simp)
            omega)
        (fun x hx => htlo x (by simp [hx]))
        (fun x hx => hthi x (by simp [hx]))
      simp only [runChecks, hstep, hrec]
      rw [List.append_assoc]
      simp [List.replicate_succ]

theorem runChecks_append (rl : ImprovedRateLimiter) (c op : String)
    (a b : List Int) :
    runChecks rl c op (a ++ b)
      = ((runChecks (runChecks rl c op a).1 c op b).1,
         (runChecks rl c op a).2 ++ (runChecks (runChecks rl c op a).1 c op b).2) := by
  induction a generalizing rl with
  | nil => simp [runChecks]
  | cons t ts ih =>
      simp only [List.cons_append, runChecks]
      simp only [List.append_eq]
      rw [ih]

/-- C4: from a fresh limiter, 31 `check_rate_limit(c, "normal")` calls
all falling inside one 60-second band are answered with 30 `True`s and
then one `False`; a later call, once the window has elapsed past every
recorded timestamp, is `True` again. -/
theorem c4_normal_budget_30_then_reset (c : String) (t0 u : Int)
    (ts : List Int) (hlen : ts.length = 31)
    (hlo : ∀ x ∈ ts, t0 ≤ x) (hhi : ∀ x ∈ ts, x < t0 + 60)
    (hu : ∀ x ∈ ts, x + 60 ≤ u) :
    (runChecks {} c "normal" ts).2
      = List.replicate 30 .allowed ++ [.limited] ∧
    (check_rate_limit (runChecks {} c "normal" ts).1 u c "normal").1
      = .allowed := by
  obtain ⟨t1, rest, rfl⟩ : ∃ a l, ts = a :: l := by
    cases ts with
    | nil => simp at hlen
    | cons a l => exact ⟨a, l, rfl⟩
  have hrest : rest.length = 30 := by simpa using hlen
  rcases rest.eq_nil_or_concat' with hnil | ⟨mid, tl, hmid⟩
  · rw [hnil] at hrest; simp at hrest
  subst hmid
  have hmidlen : mid.length = 29 := by simpa using hrest
  have hmem : ∀ x ∈ t1 :: (mid ++ [tl]), t0 ≤ x ∧ x < t0 + 60 ∧ x + 60 ≤ u :=
    fun x hx => ⟨hlo x hx, hhi x hx, hu x hx⟩
  have hfirst : check_rate_limit {} t1 c "normal"
      = (.allowed, rlWindow c [t1]) := check_first c t1
  have hmidrun := runChecks_in_window c t0 mid [t1]
    (by simp; omega)
    (fun x hx => by simp at hx; rw [hx]; exact (hmem t1 (by simp)).1)
    (fun x hx => by simp at hx; rw [hx]; exact (hmem t1 (by simp)).2.1)
    (fun x hx => (hmem x (by simp [hx])).1)
    (fun x hx => (hmem x (by simp [hx])).2.1)
  have hfull : check_rate_limit (rlWindow c ([t1] ++ mid)) tl c "normal"
      = (.limited, rlWindow c ([t1] ++ mid)) := by
    refine check_step_full c ([t1] ++ mid) tl (fun x hx => ?_)
      (by simp; omega)
    have h1 : t0 ≤ x := by
      rcases List.mem_append.mp hx with h | h
      · simp at h; rw [h]; exact (hmem t1 (by simp)).1
      · exact (hmem x (by simp [h])).1
    have h2 : tl < t0 + 60 := (hmem tl (by simp)).2.1
    omega
  have hsplit : runChecks {} c "normal" (t1 :: (mid ++ [tl]))
      = (rlWindow c ([t1] ++ mid),
         .allowed :: (List.replicate 29 .allowed ++ [.limited])) := by
    simp only [runChecks, hfirst]
    rw [runChecks_append]
    rw [hmidrun, hmidlen]
    simp only [runChecks, hfull]
  rw [hsplit]
  constructor
  · have : (List.replicate 30 RLOutcome.allowed)
        = .allowed :: List.replicate 29 .allowed := rfl
    simp [this]
  · have hreset : check_rate_limit (rlWindow c ([t1] ++ mid)) u c "normal"
        = (.allowed, rlWindow c [u]) := by
      refine check_reset c ([t1] ++ mid) u (fun x hx => ?_)
      rcases List.mem_append.mp hx with h | h
      · simp at h
        have h9 := (hmem t1 (by simp)).2.2
        omega
      · have := (hmem x (by simp [h])).2.2
        omega
    rw [hreset]

/-- C4 witness: calls at clocks 0 to 30 and a reset probe at 90. -/
theorem c4_witness :
    (((List.range 31).map (fun i => (i : Int))).length = 31 ∧
     (∀ x ∈ (List.range 31).map (fun i => (i : Int)), (0 : Int) ≤ x) ∧
     (∀ x ∈ (List.range 31).map (fun i => (i : Int)), x < 0 + 60) ∧
     (∀ x ∈ (List.range 31).map (fun i => (i : Int)), x + 60 ≤ 90)) ∧
    (runChecks {} "cl" "normal" ((List.range 31).map (fun i => (i : Int)))).2
      = List.replicate 30 .allowed ++ [.limited] ∧
    (check_rate_limit
      (runChecks {} "cl" "normal" ((List.range 31).map (fun i => (i : Int)))).1
      90 "cl" "normal").1 = .allowed :=
  ⟨⟨by decide, by decide, by decide, by decide⟩,
   (c4_normal_budget_30_then_reset "cl" 0 90
     ((List.range 31).map (fun i => (i : Int))) (by decide) (by decide)
     (by decide) (by decide)).1,
   (c4_normal_budget_30_then_reset "cl" 0 90
     ((List.range 31).map (fun i => (i : Int))) (by decide) (by decide)
     (by decide) (by decide)).2⟩

/-! ## Byte-level round-trip facts -/

theorem rd16_be16 (n : Nat) (h : n < 65536) :
    rd16 (n / 256 % 256) (n % 256) = n := by
  unfold rd16
  omega

theorem rd32_be32 (n : Nat) (h : n < 4294967296) :
    rd32 (n / 16777216 % 256) (n / 65536 % 256) (n / 256 % 256) (n % 256)
      = n := by
  unfold rd32
  omega

theorem rd64_be64 (n : Nat) (h : n < 18446744073709551616) :
    rd64 (n / 72057594037927936 % 256) (n / 281474976710656 % 256)
      (n / 1099511627776 % 256) (n / 4294967296 % 256)
      (n / 16777216 % 256) (n / 65536 % 256) (n / 256 % 256) (n % 256)
      = n := by
  unfold rd64
  omega

theorem takeExact_append (s rest : List Nat) :
    takeExact s.length (s ++ rest) = some (s, rest) := by
  unfold takeExact
  rw [if_pos (by simp)]
  rw [List.take_left, List.drop_left]

/-! ## MessagePack decoder branch lemmas -/

theorem mpDec_posfix (fuel b : Nat) (rest : List Nat) (h : b < 128) :
    mpDec (fuel + 1) (b :: rest) = some (.intV b, rest) := by
  simp [mpDec, h]

theorem mpDec_fixmap (fuel len : Nat) (rest : List Nat) (h : len < 16) :
    mpDec (fuel + 1) ((0x80 + len) :: rest)
      = (mpDecPairs fuel len rest).map (fun p => (.mapV p.1, p.2)) := by
  interval_cases len <;> simp [mpDec]

theorem mpDec_fixarr (fuel len : Nat) (rest : List Nat) (h : len < 16) :
    mpDec (fuel + 1) ((0x90 + len) :: rest)
      = (mpDecList fuel len rest).map (fun p => (.arrV p.1, p.2)) := by
  interval_cases len <;> simp [mpDec]

theorem mpDec_fixstr (fuel len : Nat) (rest : List Nat) (h : len < 32) :
    mpDec (fuel + 1) ((0xa0 + len) :: rest)
      = (takeExact len rest).map (fun p => (.strV p.1, p.2)) := by
  interval_cases len <;> simp [mpDec]

theorem mpDec_negfix (fuel b : Nat) (rest : List Nat) (h1 : 0xe0 ≤ b)
    (h2 : b ≤ 0xff) :
    mpDec (fuel + 1) (b :: rest) = some (.intV ((b : Int) - 256), rest) := by
  interval_cases b <;> simp [mpDec]

theorem mpDec_int (fuel : Nat) (n : Int) (rest : List Nat)
    (h1 : -(2 ^ 63 : Int) ≤ n) (h2 : n < 2 ^ 64) :
    mpDec (fuel + 1) (mpEncInt n ++ rest) = some (.intV n, rest) := by
  rw [mpEncInt]
  by_cases h0 : 0 ≤ n
  · rw [if_pos h0]
    have hmn : ((n.toNat : Nat) : Int) = n := Int.toNat_of_nonneg h0
    by_cases ha : n.toNat < 128
    · rw [if_pos ha]
      show mpDec (fuel + 1) (n.toNat :: rest) = _
      rw [mpDec_posfix fuel n.toNat rest ha, hmn]
    · rw [if_neg ha]
      by_cases hb : n.toNat < 256
      · rw [if_pos hb]
        show mpDec (fuel + 1) (0xcc :: n.toNat :: rest) = _
        simp [mpDec, hmn]
      · rw [if_neg hb]
        by_cases hc : n.toNat < 65536
        · rw [if_pos hc]
          show mpDec (fuel + 1)
            (0xcd :: (n.toNat / 256 % 256) :: (n.toNat % 256) :: rest) = _
          have hr := rd16_be16 n.toNat hc
          simp [mpDec, hr, hmn]
        · rw [if_neg hc]
          by_cases hd : n.toNat < 4294967296
          · rw [if_pos hd]
            show mpDec (fuel + 1) (0xce :: (n.toNat / 16777216 % 256) ::
              (n.toNat / 65536 % 256) :: (n.toNat / 256 % 256) ::
              (n.toNat % 256) :: rest) = _
            have hr := rd32_be32 n.toNat hd
            simp [mpDec, hr, hmn]
          · rw [if_neg hd]
            have he : n.toNat < 18446744073709551616 := by omega
            have hmod : n.toNat % 18446744073709551616 = n.toNat :=
              Nat.mod_eq_of_lt he
            rw [hmod]
            show mpDec (fuel + 1) (0xcf :: (n.toNat / 72057594037927936 % 256) ::
              (n.toNat / 281474976710656 % 256) ::
              (n.toNat / 1099511627776 % 256) :: (n.toNat / 4294967296 % 256) ::
              (n.toNat / 16777216 % 256) :: (n.toNat / 65536 % 256) ::
              (n.toNat / 256 % 256) :: (n.toNat % 256) :: rest) = _
            have hr := rd64_be64 n.toNat he
            simp [mpDec, hr, hmn]
  · rw [if_neg h0]
    by_cases ha : -32 ≤ n
    · rw [if_pos ha]
      have ht : ((256 + n).toNat : Int) = 256 + n := Int.toNat_of_nonneg (by omega)
      have hb1 : 0xe0 ≤ (256 + n).toNat := by omega
      have hb2 : (256 + n).toNat ≤ 0xff := by omega
      show mpDec (fuel + 1) ((256 + n).toNat :: rest) = _
      rw [mpDec_negfix fuel (256 + n).toNat rest hb1 hb2]
      have heq : ((256 + n).toNat : Int) - 256 = n := by rw [ht]; omega
      rw [heq]
    · rw [if_neg ha]
      by_cases hb : -128 ≤ n
      · rw [if_pos hb]
        have ht : ((256 + n).toNat : Int) = 256 + n := Int.toNat_of_nonneg (by omega)
        show mpDec (fuel + 1) (0xd0 :: (256 + n).toNat :: rest) = _
        have hs : signedOf 256 (256 + n).toNat = n := by
          unfold signedOf
          rw [if_neg (by omega)]
          omega
        simp [mpDec, hs]
      · rw [if_neg hb]
        by_cases hc : -32768 ≤ n
        · rw [if_pos hc]
          have hlt : (65536 + n).toNat < 65536 := by omega
          have hr := rd16_be16 (65536 + n).toNat hlt
          show mpDec (fuel + 1) (0xd1 :: ((65536 + n).toNat / 256 % 256) ::
            ((65536 + n).toNat % 256) :: rest) = _
          have hs : signedOf 65536 (65536 + n).toNat = n := by
            unfold signedOf
            rw [if_neg (by omega)]
            omega
          simp [mpDec, hr, hs]
        · rw [if_neg hc]
          by_cases hd : -2147483648 ≤ n
          · rw [if_pos hd]
            have hlt : (4294967296 + n).toNat < 4294967296 := by omega
            have hr := rd32_be32 (4294967296 + n).toNat hlt
            show mpDec (fuel + 1) (0xd2 ::
              ((4294967296 + n).toNat / 16777216 % 256) ::
              ((4294967296 + n).toNat / 65536 % 256) ::
              ((4294967296 + n).toNat / 256 % 256) ::
              ((4294967296 + n).toNat % 256) :: rest) = _
            have hs : signedOf 4294967296 (4294967296 + n).toNat = n := by
              unfold signedOf
              rw [if_neg (by omega)]
              omega
            simp [mpDec, hr, hs]
          · rw [if_neg hd]
            have hlt : (18446744073709551616 + n).toNat < 18446744073709551616 := by
              omega
            have hmod : (18446744073709551616 + n).toNat % 18446744073709551616
                = (18446744073709551616 + n).toNat := Nat.mod_eq_of_lt hlt
            rw [hmod]
            have hr := rd64_be64 (18446744073709551616 + n).toNat hlt
            show mpDec (fuel + 1) (0xd3 ::
              ((18446744073709551616 + n).toNat / 72057594037927936 % 256) ::
              ((18446744073709551616 + n).toNat / 281474976710656 % 256) ::
              ((18446744073709551616 + n).toNat / 1099511627776 % 256) ::
              ((18446744073709551616 + n).toNat / 4294967296 % 256) ::
              ((18446744073709551616 + n).toNat / 16777216 % 256) ::
              ((18446744073709551616 + n).toNat / 65536 % 256) ::
              ((18446744073709551616 + n).toNat / 256 % 256) ::
              ((18446744073709551616 + n).toNat % 256) :: rest) = _
            have hs : signedOf 18446744073709551616
                (18446744073709551616 + n).toNat = n := by
              unfold signedOf
              rw [if_neg (by omega)]
              omega
            simp [mpDec, hr, hs]

theorem mpDec_str (fuel : Nat) (s rest : List Nat)
    (h : s.length < 4294967296) :
    mpDec (fuel + 1) ((mpStrHeader s.length ++ s) ++ rest)
      = some (.strV s, rest) := by
  rw [mpStrHeader]
  by_cases h1 : s.length < 32
  · rw [if_pos h1]
    show mpDec (fuel + 1) ((0xa0 + s.length) :: (s ++ rest)) = _
    rw [mpDec_fixstr fuel s.length (s ++ rest) h1, takeExact_append]
    rfl
  · rw [if_neg h1]
    by_cases h2 : s.length < 256
    · rw [if_pos h2]
      show mpDec (fuel + 1) (0xd9 :: s.length :: (s ++ rest)) = _
      simp [mpDec, takeExact_append]
    · rw [if_neg h2]
      by_cases h3 : s.length < 65536
      · rw [if_pos h3]
        show mpDec (fuel + 1) (0xda :: (s.length / 256 % 256) ::
          (s.length % 256) :: (s ++ rest)) = _
        have hr := rd16_be16 s.length h3
        simp [mpDec, hr, takeExact_append]
      · rw [if_neg h3]
        have hmod : s.length % 4294967296 = s.length := Nat.mod_eq_of_lt h
        rw [hmod]
        show mpDec (fuel + 1) (0xdb :: (s.length / 16777216 % 256) ::
          (s.length / 65536 % 256) :: (s.length / 256 % 256) ::
          (s.length % 256) :: (s ++ rest)) = _
        have hr := rd32_be32 s.length h
        simp [mpDec, hr, takeExact_append]

theorem mpDecList_cons_eq (fuel n : Nat) (l : List Nat) :
    mpDecList (fuel + 1) (n + 1) l
      = match mpDec fuel l with
        | none => none
        | some (v, r) =>
          match mpDecList fuel n r with
          | none => none
          | some (vs, r') => some (v :: vs, r') := rfl

theorem mpDecPairs_cons_eq (fuel n : Nat) (l : List Nat) :
    mpDecPairs (fuel + 1) (n + 1) l
      = match mpDec fuel l with
        | none => none
        | some (k, r) =>
          match k with
          | .strV s =>
            (match mpDec fuel r with
             | none => none
             | some (v, r') =>
               match mpDecPairs fuel n r' with
               | none => none
               | some (kvs, r'') => some ((s, v) :: kvs, r''))
          | _ => none := rfl


theorem one_le_msize (v : MPValue) : 1 ≤ msize v := by
  cases v <;> simp [msize]

mutual

theorem mpDec_enc : ∀ (v : MPValue) (fuel : Nat) (rest : List Nat),
    wfValue v = true → msize v ≤ fuel →
    mpDec fuel (mpEnc v ++ rest) = some (v, rest)
  | v, 0, _, _, hf => absurd (le_trans (one_le_msize v) hf) (by omega)
  | .nil, fuel + 1, rest, _, _ => by simp [mpEnc, mpDec]
  | .boolV true, fuel + 1, rest, _, _ => by simp [mpEnc, mpDec]
  | .boolV false, fuel + 1, rest, _, _ => by simp [mpEnc, mpDec]
  | .intV n, fuel + 1, rest, hwf, _ => by
      have h1 : -(2 ^ 63 : Int) ≤ n ∧ n < 2 ^ 64 := by
        simpa [wfValue] using hwf
      exact mpDec_int fuel n rest h1.1 h1.2
  | .strV s, fuel + 1, rest, hwf, _ => by
      have h1 : s.length < 4294967296 := by
        have h2 := hwf
        simp [wfValue, Bool.and_eq_true] at h2
        exact h2.2
      exact mpDec_str fuel s rest h1
  | .arrV xs, fuel + 1, rest, hwf, hf => by
      have hw : wfList xs = true ∧ xs.length < 4294967296 := by
        simpa [wfValue, Bool.and_eq_true] using hwf
      have hls : mlsize xs ≤ fuel := by
        simp [msize] at hf
        omega
      have hbody := mpDecList_enc xs fuel rest hw.1 hls
      rw [mpEnc, mpArrHeader]
      by_cases h1 : xs.length < 16
      · rw [if_pos h1]
        show mpDec (fuel + 1) ((0x90 + xs.length) :: (mpEncList xs ++ rest)) = _
        rw [mpDec_fixarr fuel xs.length (mpEncList xs ++ rest) h1, hbody]
        rfl
      · rw [if_neg h1]
        by_cases h2 : xs.length < 65536
        · rw [if_pos h2]
          show mpDec (fuel + 1) (0xdc :: (xs.length / 256 % 256) ::
            (xs.length % 256) :: (mpEncList xs ++ rest)) = _
          have hr := rd16_be16 xs.length h2
          simp [mpDec, hr, hbody]
        · rw [if_neg h2]
          have hmod : xs.length % 4294967296 = xs.length :=
            Nat.mod_eq_of_lt hw.2
          rw [hmod]
          show mpDec (fuel + 1) (0xdd :: (xs.length / 16777216 % 256) ::
            (xs.length / 65536 % 256) :: (xs.length / 256 % 256) ::
            (xs.length % 256) :: (mpEncList xs ++ rest)) = _
          have hr := rd32_be32 xs.length hw.2
          simp [mpDec, hr, hbody]
  | .mapV kvs, fuel + 1, rest, hwf, hf => by
      have hw : wfPairs kvs = true ∧ kvs.length < 4294967296 := by
        simpa [wfValue, Bool.and_eq_true] using hwf
      have hls : mpsize kvs ≤ fuel := by
        simp [msize] at hf
        omega
      have hbody := mpDecPairs_enc kvs fuel rest hw.1 hls
      rw [mpEnc, mpMapHeader]
      by_cases h1 : kvs.length < 16
      · rw [if_pos h1]
        show mpDec (fuel + 1) ((0x80 + kvs.length) :: (mpEncPairs kvs ++ rest)) = _
        rw [mpDec_fixmap fuel kvs.length (mpEncPairs kvs ++ rest) h1, hbody]
        rfl
      · rw [if_neg h1]
        by_cases h2 : kvs.length < 65536
        · rw [if_pos h2]
          show mpDec (fuel + 1) (0xde :: (kvs.length / 256 % 256) ::
            (kvs.length % 256) :: (mpEncPairs kvs ++ rest)) = _
          have hr := rd16_be16 kvs.length h2
          simp [mpDec, hr, hbody]
        · rw [if_neg h2]
          have hmod : kvs.length % 4294967296 = kvs.length :=
            Nat.mod_eq_of_lt hw.2
          rw [hmod]
          show mpDec (fuel + 1) (0xdf :: (kvs.length / 16777216 % 256) ::
            (kvs.length / 65536 % 256) :: (kvs.length / 256 % 256) ::
            (kvs.length % 256) :: (mpEncPairs kvs ++ rest)) = _
          have hr := rd32_be32 kvs.length hw.2
          simp [mpDec, hr, hbody]

theorem mpDecList_enc : ∀ (xs : List MPValue) (fuel : Nat) (rest : List Nat),
    wfList xs = true → mlsize xs ≤ fuel →
    mpDecList fuel xs.length (mpEncList xs ++ rest) = some (xs, rest)
  | [], fuel, rest, _, _ => by cases fuel <;> rfl
  | _ :: _, 0, _, _, hf => by simp [mlsize] at hf
  | x :: xs, fuel + 1, rest, hwf, hf => by
      have hw : wfValue x = true ∧ wfList xs = true := by
        simpa [wfList, Bool.and_eq_true] using hwf
      have hx : msize x ≤ fuel := by
        simp [mlsize] at hf
        omega
      have hxs : mlsize xs ≤ fuel := by
        simp [mlsize] at hf
        omega
      show mpDecList (fuel + 1) (xs.length + 1)
        ((mpEnc x ++ mpEncList xs) ++ rest) = _
      rw [List.append_assoc, mpDecList_cons_eq,
        mpDec_enc x fuel (mpEncList xs ++ rest) hw.1 hx]
      show (match mpDecList fuel xs.length (mpEncList xs ++ rest) with
            | none => none
            | some (vs, r') => some (x :: vs, r')) = _
      rw [mpDecList_enc xs fuel rest hw.2 hxs]

theorem mpDecPairs_enc : ∀ (kvs : List (List Nat × MPValue)) (fuel : Nat)
    (rest : List Nat), wfPairs kvs = true → mpsize kvs ≤ fuel →
    mpDecPairs fuel kvs.length (mpEncPairs kvs ++ rest) = some (kvs, rest)
  | [], fuel, rest, _, _ => by cases fuel <;> rfl
  | _ :: _, 0, _, _, hf => by simp [mpsize] at hf
  | (k, v) :: kvs, fuel + 1, rest, hwf, hf => by
      have hw : (k.all (fun c => c < 128) = true ∧ k.length < 4294967296) ∧
          wfValue v = true ∧ wfPairs kvs = true := by
        simpa [wfPairs, Bool.and_eq_true] using hwf
      obtain ⟨f, rfl⟩ : ∃ f, fuel = f + 1 :=
        ⟨fuel - 1, by simp [mpsize] at hf; omega⟩
      have hv : msize v ≤ f + 1 := by
        simp [mpsize] at hf
        omega
      have hkvs : mpsize kvs ≤ f + 1 := by
        simp [mpsize] at hf
        omega
      show mpDecPairs (f + 1 + 1) (kvs.length + 1)
        (((mpStrHeader k.length ++ k) ++ mpEnc v ++ mpEncPairs kvs) ++ rest) = _
      rw [show ((mpStrHeader k.length ++ k) ++ mpEnc v ++ mpEncPairs kvs) ++ rest
          = (mpStrHeader k.length ++ k) ++ (mpEnc v ++ (mpEncPairs kvs ++ rest)) by
        simp [List.append_assoc]]
      rw [mpDecPairs_cons_eq,
        mpDec_str f k (mpEnc v ++ (mpEncPairs kvs ++ rest)) hw.1.2]
      show (match mpDec (f + 1) (mpEnc v ++ (mpEncPairs kvs ++ rest)) with
            | none => none
            | some (v', r') =>
              match mpDecPairs (f + 1) kvs.length r' with
              | none => none
              | some (kvs', r'') => some ((k, v') :: kvs', r'')) = _
      rw [mpDec_enc v (f + 1) (mpEncPairs kvs ++ rest) hw.2.1 hv]
      show (match mpDecPairs (f + 1) kvs.length (mpEncPairs kvs ++ rest) with
            | none => none
            | some (kvs', r'') => some ((k, v) :: kvs', r'')) = _
      rw [mpDecPairs_enc kvs (f + 1) rest hw.2.2 hkvs]

end

/-! ## JSON codec lemmas -/

theorem hexVal_hexDigitChar (d : Nat) (h : d < 16) :
    hexVal (hexDigitChar d) = some d := by
  interval_cases d <;> decide

theorem jsonDecStrBody_escape : ∀ (s : List Nat), (∀ c ∈ s, c < 128) →
    ∀ rest, jsonDecStrBody (escapeStr s ++ (34 :: rest)) = some (s, rest)
  | [], _, rest => by
      rw [show escapeStr [] ++ (34 :: rest) = 34 :: rest by simp [escapeStr]]
      rw [jsonDecStrBody.eq_def]
      simp
  | c :: s, hs, rest => by
      have hs' : ∀ x ∈ s, x < 128 := fun x hx => hs x (by simp [hx])
      have hc : c < 128 := hs c (by simp)
      have ih := jsonDecStrBody_escape s hs' rest
      have hesc : escapeStr (c :: s) = escapeChar c ++ escapeStr s := by
        simp [escapeStr]
      rw [hesc, List.append_assoc, escapeChar]
      by_cases h34 : c = 34
      · rw [if_pos h34]
        rw [show (([92, 34] : List Nat) ++ (escapeStr s ++ (34 :: rest)))
            = 92 :: 34 :: (escapeStr s ++ (34 :: rest)) by simp]
        rw [jsonDecStrBody.eq_def]
        simp [unescapeChar, ih, h34]
      · rw [if_neg h34]
        by_cases h92 : c = 92
        · rw [if_pos h92]
          rw [show (([92, 92] : List Nat) ++ (escapeStr s ++ (34 :: rest)))
              = 92 :: 92 :: (escapeStr s ++ (34 :: rest)) by simp]
          rw [jsonDecStrBody.eq_def]
          simp [unescapeChar, ih, h92]
        · rw [if_neg h92]
          by_cases h8 : c = 8
          · rw [if_pos h8]
            rw [show (([92, 98] : List Nat) ++ (escapeStr s ++ (34 :: rest)))
                = 92 :: 98 :: (escapeStr s ++ (34 :: rest)) by simp]
            rw [jsonDecStrBody.eq_def]
            simp [unescapeChar, ih, h8]
          · rw [if_neg h8]
            by_cases h9 : c = 9
            · rw [if_pos h9]
              rw [show (([92, 116] : List Nat) ++ (escapeStr s ++ (34 :: rest)))
                  = 92 :: 116 :: (escapeStr s ++ (34 :: rest)) by simp]
              rw [jsonDecStrBody.eq_def]
              simp [unescapeChar, ih, h9]
            · rw [if_neg h9]
              by_cases h10 : c = 10
              · rw [if_pos h10]
                rw [show (([92, 110] : List Nat) ++ (escapeStr s ++ (34 :: rest)))
                    = 92 :: 110 :: (escapeStr s ++ (34 :: rest)) by simp]
                rw [jsonDecStrBody.eq_def]
                simp [unescapeChar, ih, h10]
              · rw [if_neg h10]
                by_cases h12 : c = 12
                · rw [if_pos h12]
                  rw [show (([92, 102] : List Nat) ++ (escapeStr s ++ (34 :: rest)))
                      = 92 :: 102 :: (escapeStr s ++ (34 :: rest)) by simp]
                  rw [jsonDecStrBody.eq_def]
                  simp [unescapeChar, ih, h12]
                · rw [if_neg h12]
                  by_cases h13 : c = 13
                  · rw [if_pos h13]
                    rw [show (([92, 114] : List Nat) ++ (escapeStr s ++ (34 :: rest)))
                        = 92 :: 114 :: (escapeStr s ++ (34 :: rest)) by simp]
                    rw [jsonDecStrBody.eq_def]
                    simp [unescapeChar, ih, h13]
                  · rw [if_neg h13]
                    by_cases h32 : c < 32
                    · rw [if_pos h32]
                      have hv1 := hexVal_hexDigitChar (c / 16) (by omega)
                      have hv2 := hexVal_hexDigitChar (c % 16) (by omega)
                      rw [show (([92, 117, 48, 48, hexDigitChar (c / 16),
                            hexDigitChar (c % 16)] : List Nat)
                          ++ (escapeStr s ++ (34 :: rest)))
                          = 92 :: 117 :: 48 :: 48 :: hexDigitChar (c / 16) ::
                            hexDigitChar (c % 16) ::
                            (escapeStr s ++ (34 :: rest)) by simp]
                      rw [jsonDecStrBody.eq_def]
                      have harith : c / 16 * 16 + c % 16 = c := by omega
                      simp [hv1, hv2, ih, harith, show hexVal 48 = some 0 from rfl]
                    · rw [if_neg h32]
                      rw [show (([c] : List Nat) ++ (escapeStr s ++ (34 :: rest)))
                          = c :: (escapeStr s ++ (34 :: rest)) by simp]
                      rw [jsonDecStrBody.eq_def]
                      simp [h34, h92, ih]

theorem natToDigitsAux_spec : ∀ (fuel n : Nat), n < fuel →
    natToDigitsAux fuel n ≠ [] ∧
    (∀ d ∈ natToDigitsAux fuel n, 48 ≤ d ∧ d ≤ 57) ∧
    digitsVal (natToDigitsAux fuel n) = n
  | 0, n, h => absurd h (by omega)
  | fuel + 1, n, h => by
      rw [natToDigitsAux]
      by_cases h10 : n < 10
      · rw [if_pos h10]
        refine ⟨by simp, ?_, ?_⟩
        · intro d hd
          simp at hd
          omega
        · simp [digitsVal]
      · rw [if_neg h10]
        have hrec := natToDigitsAux_spec fuel (n / 10)
          (by
            have h1 : n / 10 < n := Nat.div_lt_self (by omega) (by omega)
            omega)
        refine ⟨by simp, ?_, ?_⟩
        · intro d hd
          rcases List.mem_append.mp hd with h1 | h1
          · exact hrec.2.1 d h1
          · simp at h1
            omega
        · have happ : digitsVal (natToDigitsAux fuel (n / 10) ++ [48 + n % 10])
              = digitsVal (natToDigitsAux fuel (n / 10)) * 10
                + (48 + n % 10 - 48) := by
            simp [digitsVal, List.foldl_append]
          rw [happ, hrec.2.2]
          omega

theorem natToDigits_spec (n : Nat) :
    natToDigits n ≠ [] ∧
    (∀ d ∈ natToDigits n, 48 ≤ d ∧ d ≤ 57) ∧
    digitsVal (natToDigits n) = n :=
  natToDigitsAux_spec (n + 1) n (by omega)

theorem takeWhile_digits_append : ∀ (ds rest : List Nat),
    (∀ d ∈ ds, isDigit d = true) →
    (∀ c, rest.head? = some c → isDigit c = false) →
    (ds ++ rest).takeWhile isDigit = ds ∧
    (ds ++ rest).dropWhile isDigit = rest
  | [], rest, _, hr => by
      cases rest with
      | nil => simp
      | cons c t =>
          have := hr c (by simp)
          simp [List.takeWhile, List.dropWhile, this]
  | d :: ds, rest, hd, hr => by
      have h1 : isDigit d = true := hd d (by simp)
      have hrec := takeWhile_digits_append ds rest
        (fun x hx => hd x (by simp [hx])) hr
      simp [List.takeWhile, List.dropWhile, h1, hrec.1, hrec.2]

theorem jsonDecInt_enc (n : Int) (rest : List Nat)
    (hrest : ∀ c, rest.head? = some c → isDigit c = false) :
    jsonDecInt (jsonEncInt n ++ rest) = some (n, rest) := by
  rw [jsonEncInt]
  by_cases hn : n < 0
  · rw [if_pos hn]
    have hspec := natToDigits_spec (-n).toNat
    have htd := takeWhile_digits_append (natToDigits (-n).toNat) rest
      (fun d hd => by
        have := hspec.2.1 d hd
        simp [isDigit]
        omega)
      hrest
    rw [jsonDecInt]
    rw [if_pos (show ((45 :: natToDigits (-n).toNat) ++ rest).head? = some 45
      from rfl)]
    simp only [List.cons_append, List.tail_cons]
    rw [htd.1, htd.2, if_neg hspec.1, hspec.2.2]
    have : ((((-n).toNat : Nat) : Int)) = -n := Int.toNat_of_nonneg (by omega)
    rw [this]
    simp
  · rw [if_neg hn]
    have hspec := natToDigits_spec n.toNat
    have htd := takeWhile_digits_append (natToDigits n.toNat) rest
      (fun d hd => by
        have := hspec.2.1 d hd
        simp [isDigit]
        omega)
      hrest
    rw [jsonDecInt]
    have hhead : (natToDigits n.toNat ++ rest).head? ≠ some 45 := by
      rcases hne : natToDigits n.toNat with _ | ⟨d, t⟩
      · exact absurd hne hspec.1
      · have hd := hspec.2.1 d (by rw [hne]; simp)
        simp
        omega
    rw [if_neg hhead]
    rw [htd.1, htd.2, if_neg hspec.1, hspec.2.2]
    have : ((n.toNat : Nat) : Int) = n := Int.toNat_of_nonneg (by omega)
    rw [this]

theorem skipWs_cons_of_not_ws (c : Nat) (l : List Nat) (h : isWs c = false) :
    skipWs (c :: l) = c :: l := by
  simp [skipWs, List.dropWhile, h]

theorem jsonEnc_head : ∀ (v : MPValue),
    ∃ c t, jsonEnc v = c :: t ∧ isWs c = false ∧ c ≠ 93 := by
  intro v
  cases v with
  | nil => exact ⟨110, _, rfl, by decide, by decide⟩
  | boolV b => cases b
               · exact ⟨102, _, rfl, by decide, by decide⟩
               · exact ⟨116, _, rfl, by decide, by decide⟩
  | intV n =>
      rw [jsonEnc]
      by_cases hn : n < 0
      · rw [jsonEncInt, if_pos hn]
        exact ⟨45, _, rfl, by decide, by decide⟩
      · rw [jsonEncInt, if_neg hn]
        have hspec := natToDigits_spec n.toNat
        rcases hne : natToDigits n.toNat with _ | ⟨d, t⟩
        · exact absurd hne hspec.1
        · have hd := hspec.2.1 d (by rw [hne]; simp)
          refine ⟨d, t, rfl, ?_, by omega⟩
          simp [isWs]
          omega
  | strV s => exact ⟨34, _, rfl, by decide, by decide⟩
  | arrV xs =>
      cases xs with
      | nil => exact ⟨91, _, rfl, by decide, by decide⟩
      | cons x xs => exact ⟨91, _, rfl, by decide, by decide⟩
  | mapV kvs =>
      cases kvs with
      | nil => exact ⟨123, _, rfl, by decide, by decide⟩
      | cons kv kvs =>
          obtain ⟨k, v⟩ := kv
          exact ⟨123, _, rfl, by decide, by decide⟩

theorem skipWs_enc (v : MPValue) (rest : List Nat) :
    skipWs (jsonEnc v ++ rest) = jsonEnc v ++ rest := by
  obtain ⟨c, t, he, hw, _⟩ := jsonEnc_head v
  rw [he]
  exact skipWs_cons_of_not_ws c (t ++ rest) hw

theorem jsonDecVal_congr (fuel : Nat) (l l' : List Nat)
    (h : skipWs l = skipWs l') : jsonDecVal fuel l = jsonDecVal fuel l' := by
  cases fuel <;> simp only [jsonDecVal, h]

theorem jsonDecEntries_congr (fuel : Nat) (l l' : List Nat)
    (h : skipWs l = skipWs l') :
    jsonDecEntries fuel l = jsonDecEntries fuel l' := by
  cases fuel <;> simp only [jsonDecEntries, h]

theorem jsonDecElems_congr (fuel : Nat) (l l' : List Nat)
    (h : skipWs l = skipWs l') :
    jsonDecElems fuel l = jsonDecElems fuel l' := by
  cases fuel with
  | zero => rfl
  | succ f => simp only [jsonDecElems, jsonDecVal_congr f l l' h]

theorem one_le_jsize (v : MPValue) : 1 ≤ jsize v := by
  cases v <;> simp [jsize]

theorem skipWs_cons_ws (c : Nat) (l : List Nat) (h : isWs c = true) :
    skipWs (c :: l) = skipWs l := by
  simp [skipWs, List.dropWhile, h]

theorem jsonEncInt_head (n : Int) :
    ∃ hd t, jsonEncInt n = hd :: t ∧ (hd = 45 ∨ (48 ≤ hd ∧ hd ≤ 57)) := by
  rw [jsonEncInt]
  by_cases hn : n < 0
  · rw [if_pos hn]
    exact ⟨45, _, rfl, Or.inl rfl⟩
  · rw [if_neg hn]
    have hspec := natToDigits_spec n.toNat
    rcases hne : natToDigits n.toNat with _ | ⟨d, t⟩
    · exact absurd hne hspec.1
    · have hd := hspec.2.1 d (by rw [hne]; simp)
      exact ⟨d, t, rfl, Or.inr hd⟩

theorem nonDigit93 : ∀ c : Nat, (93 :: ([] : List Nat)).head? = some c →
    isDigit c = false := by
  intro c hc
  simp at hc
  subst hc
  decide

mutual

theorem jsonDecVal_enc : ∀ (v : MPValue) (fuel : Nat) (rest : List Nat),
    wfValue v = true → jsize v ≤ fuel →
    (∀ c, rest.head? = some c → isDigit c = false) →
    jsonDecVal fuel (jsonEnc v ++ rest) = some (v, rest)
  | v, 0, _, _, hf, _ => absurd (le_trans (one_le_jsize v) hf) (by omega)
  | .nil, fuel + 1, rest, _, _, _ => by
      simp only [jsonDecVal]
      rw [show jsonEnc .nil ++ rest = 110 :: 117 :: 108 :: 108 :: rest from rfl]
      rw [skipWs_cons_of_not_ws 110 _ (by decide)]
      simp
  | .boolV true, fuel + 1, rest, _, _, _ => by
      simp only [jsonDecVal]
      rw [show jsonEnc (.boolV true) ++ rest
          = 116 :: 114 :: 117 :: 101 :: rest from rfl]
      rw [skipWs_cons_of_not_ws 116 _ (by decide)]
      simp
  | .boolV false, fuel + 1, rest, _, _, _ => by
      simp only [jsonDecVal]
      rw [show jsonEnc (.boolV false) ++ rest
          = 102 :: 97 :: 108 :: 115 :: 101 :: rest from rfl]
      rw [skipWs_cons_of_not_ws 102 _ (by decide)]
      simp
  | .intV n, fuel + 1, rest, hwf, _, hrest => by
      simp only [jsonDecVal]
      obtain ⟨hd, t, he, hf⟩ := jsonEncInt_head n
      have henc : jsonEnc (.intV n) ++ rest = hd :: (t ++ rest) := by
        rw [show jsonEnc (.intV n) = jsonEncInt n from rfl, he]
        simp
      rw [henc]
      rw [skipWs_cons_of_not_ws hd _ (by
        rcases hf with h | h <;> simp [isWs] <;> omega)]
      have hne1 : hd ≠ 110 := by rcases hf with h | h <;> omega
      have hne2 : hd ≠ 116 := by rcases hf with h | h <;> omega
      have hne3 : hd ≠ 102 := by rcases hf with h | h <;> omega
      have hne4 : hd ≠ 34 := by rcases hf with h | h <;> omega
      have hne5 : hd ≠ 91 := by rcases hf with h | h <;> omega
      have hne6 : hd ≠ 123 := by rcases hf with h | h <;> omega
      have hint : jsonDecInt (hd :: (t ++ rest)) = some (n, rest) := by
        rw [show hd :: (t ++ rest) = jsonEncInt n ++ rest by rw [he]; simp]
        exact jsonDecInt_enc n rest hrest
      simp [hne1, hne2, hne3, hne4, hne5, hne6, hint]
  | .strV s, fuel + 1, rest, hwf, _, _ => by
      have hascii : ∀ c ∈ s, c < 128 := by
        have h2 := hwf
        simp only [wfValue, Bool.and_eq_true, List.all_eq_true,
          decide_eq_true_eq] at h2
        exact h2.1
      simp only [jsonDecVal]
      rw [show jsonEnc (.strV s) ++ rest
          = 34 :: (escapeStr s ++ (34 :: rest)) by
        simp [jsonEnc, jsonEncStr]]
      rw [skipWs_cons_of_not_ws 34 _ (by decide)]
      have hbody := jsonDecStrBody_escape s hascii rest
      simp [hbody]
  | .arrV [], fuel + 1, rest, _, _, _ => by
      simp only [jsonDecVal]
      rw [show jsonEnc (.arrV []) ++ rest = 91 :: 93 :: rest from rfl]
      rw [skipWs_cons_of_not_ws 91 _ (by decide)]
      have h93 := skipWs_cons_of_not_ws 93 rest (by decide)
      simp [h93]
  | .arrV (x :: xs), fuel + 1, rest, hwf, hf, _ => by
      have hw : wfValue x = true ∧ wfList xs = true := by
        have h2 := hwf
        simp only [wfValue, wfList, Bool.and_eq_true, decide_eq_true_eq] at h2
        exact ⟨h2.1.1, h2.1.2⟩
      have hsz : 1 + jsize x + jesize xs ≤ fuel := by
        simp [jsize, jesize] at hf
        omega
      simp only [jsonDecVal]
      rw [show jsonEnc (.arrV (x :: xs)) ++ rest
          = 91 :: (jsonEnc x ++ (jsonEncElems xs ++ (93 :: rest))) by
        simp [jsonEnc]]
      rw [skipWs_cons_of_not_ws 91 _ (by decide)]
      have hskip := skipWs_enc x (jsonEncElems xs ++ (93 :: rest))
      obtain ⟨c, t, he, hwc, hne93⟩ := jsonEnc_head x
      have hbody := jsonDecElems_enc xs x fuel rest hw.1 hw.2 hsz
      norm_num
      split
      · rename_i r heq
        rw [hskip, he, List.cons_append] at heq
        simp only [List.cons.injEq] at heq
        exact absurd heq.1 hne93
      · rw [hbody]
        rfl
  | .mapV [], fuel + 1, rest, _, _, _ => by
      simp only [jsonDecVal]
      rw [show jsonEnc (.mapV []) ++ rest = 123 :: 125 :: rest from rfl]
      rw [skipWs_cons_of_not_ws 123 _ (by decide)]
      have h125 := skipWs_cons_of_not_ws 125 rest (by decide)
      simp [h125]
  | .mapV ((k, v) :: kvs), fuel + 1, rest, hwf, hf, _ => by
      have hw : (∀ c ∈ k, c < 128) ∧ wfValue v = true ∧ wfPairs kvs = true := by
        have h2 := hwf
        simp only [wfValue, wfPairs, Bool.and_eq_true, List.all_eq_true,
          decide_eq_true_eq] at h2
        exact ⟨h2.1.1.1, h2.1.2.1, h2.1.2.2⟩
      have hsz : 1 + jsize v + jpsize kvs ≤ fuel := by
        simp [jsize, jpsize] at hf
        omega
      simp only [jsonDecVal]
      rw [show jsonEnc (.mapV ((k, v) :: kvs)) ++ rest
          = 123 :: (34 :: (escapeStr k ++ (34 :: (58 :: 32 ::
              (jsonEnc v ++ (jsonEncEntries kvs ++ (125 :: rest))))))) by
        simp [jsonEnc, jsonEncStr]]
      rw [skipWs_cons_of_not_ws 123 _ (by decide)]
      have h34 := skipWs_cons_of_not_ws 34
        (escapeStr k ++ (34 :: (58 :: 32 ::
          (jsonEnc v ++ (jsonEncEntries kvs ++ (125 :: rest)))))) (by decide)
      have hbody := jsonDecEntries_enc kvs k v fuel rest hw.1 hw.2.1 hw.2.2 hsz
      simp [h34, hbody]

theorem jsonDecElems_enc : ∀ (xs : List MPValue) (x : MPValue) (fuel : Nat)
    (rest : List Nat), wfValue x = true → wfList xs = true →
    1 + jsize x + jesize xs ≤ fuel →
    jsonDecElems fuel (jsonEnc x ++ (jsonEncElems xs ++ (93 :: rest)))
      = some (x :: xs, rest)
  | xs, x, 0, _, _, _, hf => by
      have := one_le_jsize x
      omega
  | [], x, fuel + 1, rest, hwx, _, hf => by
      have hx : jsize x ≤ fuel := by omega
      simp only [jsonDecElems]
      rw [show jsonEnc x ++ (jsonEncElems [] ++ (93 :: rest))
          = jsonEnc x ++ (93 :: rest) by simp [jsonEncElems]]
      rw [jsonDecVal_enc x fuel (93 :: rest) hwx hx
        (by intro c hc; simp at hc; subst hc; decide)]
      have h93 := skipWs_cons_of_not_ws 93 rest (by decide)
      simp [h93]
  | y :: ys, x, fuel + 1, rest, hwx, hwl, hf => by
      have hw : wfValue y = true ∧ wfList ys = true := by
        have h2 := hwl
        simp only [wfList, Bool.and_eq_true] at h2
        exact h2
      have hx : jsize x ≤ fuel := by
        simp [jesize] at hf
        omega
      have hrec : 1 + jsize y + jesize ys ≤ fuel := by
        simp [jesize] at hf
        omega
      simp only [jsonDecElems]
      rw [show jsonEnc x ++ (jsonEncElems (y :: ys) ++ (93 :: rest))
          = jsonEnc x ++ (44 :: 32 ::
              (jsonEnc y ++ (jsonEncElems ys ++ (93 :: rest)))) by
        simp [jsonEncElems]]
      rw [jsonDecVal_enc x fuel _ hwx hx
        (by intro c hc; simp at hc; subst hc; decide)]
      have h44 := skipWs_cons_of_not_ws 44
        (32 :: (jsonEnc y ++ (jsonEncElems ys ++ (93 :: rest)))) (by decide)
      have hcongr := jsonDecElems_congr fuel
        (32 :: (jsonEnc y ++ (jsonEncElems ys ++ (93 :: rest))))
        (jsonEnc y ++ (jsonEncElems ys ++ (93 :: rest)))
        (skipWs_cons_ws 32 _ (by decide))
      have hrecall := jsonDecElems_enc ys y fuel rest hw.1 hw.2 hrec
      simp [h44, hcongr, hrecall]

theorem jsonDecEntries_enc : ∀ (kvs : List (List Nat × MPValue))
    (k : List Nat) (v : MPValue) (fuel : Nat) (rest : List Nat),
    (∀ c ∈ k, c < 128) → wfValue v = true → wfPairs kvs = true →
    1 + jsize v + jpsize kvs ≤ fuel →
    jsonDecEntries fuel (34 :: (escapeStr k ++ (34 :: (58 :: 32 ::
        (jsonEnc v ++ (jsonEncEntries kvs ++ (125 :: rest)))))))
      = some ((k, v) :: kvs, rest)
  | kvs, k, v, 0, _, _, _, _, hf => by
      have := one_le_jsize v
      omega
  | [], k, v, fuel + 1, rest, hk, hwv, _, hf => by
      have hv : jsize v ≤ fuel := by omega
      simp only [jsonDecEntries]
      rw [skipWs_cons_of_not_ws 34 _ (by decide)]
      have hkey := jsonDecStrBody_escape k hk
        (58 :: 32 :: (jsonEnc v ++ (jsonEncEntries [] ++ (125 :: rest))))
      have h58 := skipWs_cons_of_not_ws 58
        (32 :: (jsonEnc v ++ (jsonEncEntries [] ++ (125 :: rest)))) (by decide)
      have hcongr := jsonDecVal_congr fuel
        (32 :: (jsonEnc v ++ (jsonEncEntries [] ++ (125 :: rest))))
        (jsonEnc v ++ (jsonEncEntries [] ++ (125 :: rest)))
        (skipWs_cons_ws 32 _ (by decide))
      have hval : jsonDecVal fuel
          (jsonEnc v ++ (jsonEncEntries [] ++ (125 :: rest)))
          = some (v, 125 :: rest) := by
        rw [show jsonEnc v ++ (jsonEncEntries [] ++ (125 :: rest))
            = jsonEnc v ++ (125 :: rest) by simp [jsonEncEntries]]
        exact jsonDecVal_enc v fuel (125 :: rest) hwv hv
          (by intro c hc; simp at hc; subst hc; decide)
      have h125 := skipWs_cons_of_not_ws 125 rest (by decide)
      simp [hkey, h58, hcongr, hval, h125]
  | (k2, v2) :: kvs, k, v, fuel + 1, rest, hk, hwv, hwp, hf => by
      have hw : (∀ c ∈ k2, c < 128) ∧ wfValue v2 = true ∧ wfPairs kvs = true := by
        have h2 := hwp
        simp only [wfPairs, Bool.and_eq_true, List.all_eq_true,
          decide_eq_true_eq] at h2
        exact ⟨h2.1.1, h2.2.1, h2.2.2⟩
      have hv : jsize v ≤ fuel := by
        simp [jpsize] at hf
        omega
      have hrec : 1 + jsize v2 + jpsize kvs ≤ fuel := by
        simp [jpsize] at hf
        omega
      simp only [jsonDecEntries]
      rw [skipWs_cons_of_not_ws 34 _ (by decide)]
      have hkey := jsonDecStrBody_escape k hk
        (58 :: 32 :: (jsonEnc v ++ (jsonEncEntries ((k2, v2) :: kvs)
          ++ (125 :: rest))))
      have h58 := skipWs_cons_of_not_ws 58
        (32 :: (jsonEnc v ++ (jsonEncEntries ((k2, v2) :: kvs)
          ++ (125 :: rest)))) (by decide)
      have hcongr := jsonDecVal_congr fuel
        (32 :: (jsonEnc v ++ (jsonEncEntries ((k2, v2) :: kvs) ++ (125 :: rest))))
        (jsonEnc v ++ (jsonEncEntries ((k2, v2) :: kvs) ++ (125 :: rest)))
        (skipWs_cons_ws 32 _ (by decide))
      have hval : jsonDecVal fuel
          (jsonEnc v ++ (jsonEncEntries ((k2, v2) :: kvs) ++ (125 :: rest)))
          = some (v, 44 :: 32 :: (34 :: (escapeStr k2 ++ (34 :: (58 :: 32 ::
              (jsonEnc v2 ++ (jsonEncEntries kvs ++ (125 :: rest)))))))) := by
        rw [show jsonEncEntries ((k2, v2) :: kvs) ++ (125 :: rest)
            = 44 :: 32 :: (34 :: (escapeStr k2 ++ (34 :: (58 :: 32 ::
                (jsonEnc v2 ++ (jsonEncEntries kvs ++ (125 :: rest))))))) by
          simp [jsonEncEntries, jsonEncStr]]
        exact jsonDecVal_enc v fuel _ hwv hv
          (by intro c hc; simp at hc; subst hc; decide)
      have h44 := skipWs_cons_of_not_ws 44
        (32 :: (34 :: (escapeStr k2 ++ (34 :: (58 :: 32 ::
          (jsonEnc v2 ++ (jsonEncEntries kvs ++ (125 :: rest)))))))) (by decide)
      have hcongr2 := jsonDecEntries_congr fuel
        (32 :: (34 :: (escapeStr k2 ++ (34 :: (58 :: 32 ::
          (jsonEnc v2 ++ (jsonEncEntries kvs ++ (125 :: rest))))))))
        (34 :: (escapeStr k2 ++ (34 :: (58 :: 32 ::
          (jsonEnc v2 ++ (jsonEncEntries kvs ++ (125 :: rest)))))))
        (skipWs_cons_ws 32 _ (by decide))
      have hrecall := jsonDecEntries_enc kvs k2 v2 fuel rest hw.1 hw.2.1
        hw.2.2 hrec
      simp [hkey, h58, hcongr, hval, h44, hcongr2, hrecall]

end

/-! ## Encoder length bounds: fuel sufficiency for the full decoders -/

theorem one_le_mpEncInt_length (n : Int) : 1 ≤ (mpEncInt n).length := by
  rw [mpEncInt]
  split_ifs <;> simp [be16, be32, be64] <;> split_ifs <;>
    simp [be16, be32, be64]

theorem one_le_mpStrHeader_length (n : Nat) : 1 ≤ (mpStrHeader n).length := by
  rw [mpStrHeader]
  split_ifs <;> simp [be16, be32]

theorem one_le_mpArrHeader_length (n : Nat) : 1 ≤ (mpArrHeader n).length := by
  rw [mpArrHeader]
  split_ifs <;> simp [be16, be32]

theorem one_le_mpMapHeader_length (n : Nat) : 1 ≤ (mpMapHeader n).length := by
  rw [mpMapHeader]
  split_ifs <;> simp [be16, be32]

theorem one_le_mpEnc_length (v : MPValue) : 1 ≤ (mpEnc v).length := by
  cases v with
  | nil => simp [mpEnc]
  | boolV b => cases b <;> simp [mpEnc]
  | intV n => simpa [mpEnc] using one_le_mpEncInt_length n
  | strV s =>
      have := one_le_mpStrHeader_length s.length
      simp [mpEnc]
      omega
  | arrV xs =>
      have := one_le_mpArrHeader_length xs.length
      simp [mpEnc]
      omega
  | mapV kvs =>
      have := one_le_mpMapHeader_length kvs.length
      simp [mpEnc]
      omega

theorem one_le_jsonEncInt_length (n : Int) : 1 ≤ (jsonEncInt n).length := by
  obtain ⟨hd, t, he, _⟩ := jsonEncInt_head n
  simp [he]

theorem one_le_jsonEnc_length (v : MPValue) : 1 ≤ (jsonEnc v).length := by
  obtain ⟨c, t, he, _, _⟩ := jsonEnc_head v
  simp [he]

mutual

theorem msize_le : ∀ v : MPValue, msize v + 1 ≤ 2 * (mpEnc v).length
  | .nil => by simp [msize, mpEnc]
  | .boolV b => by cases b <;> simp [msize, mpEnc]
  | .intV n => by
      have := one_le_mpEncInt_length n
      simp [msize, mpEnc]
      omega
  | .strV s => by
      have := one_le_mpStrHeader_length s.length
      simp [msize, mpEnc]
      omega
  | .arrV xs => by
      have h1 := mlsize_le xs
      have h2 := one_le_mpArrHeader_length xs.length
      simp [msize, mpEnc]
      omega
  | .mapV kvs => by
      have h1 := mpsize_le kvs
      have h2 := one_le_mpMapHeader_length kvs.length
      simp [msize, mpEnc]
      omega

theorem mlsize_le : ∀ xs : List MPValue, mlsize xs ≤ 2 * (mpEncList xs).length
  | [] => by simp [mlsize, mpEncList]
  | x :: xs => by
      have h1 := msize_le x
      have h2 := mlsize_le xs
      simp [mlsize, mpEncList]
      omega

theorem mpsize_le : ∀ kvs : List (List Nat × MPValue),
    mpsize kvs ≤ 2 * (mpEncPairs kvs).length
  | [] => by simp [mpsize, mpEncPairs]
  | (k, v) :: rest => by
      have h1 := msize_le v
      have h2 := mpsize_le rest
      have h3 := one_le_mpStrHeader_length k.length
      simp [mpsize, mpEncPairs]
      omega

end

mutual

theorem jsize_le : ∀ v : MPValue, jsize v ≤ 2 * (jsonEnc v).length
  | .nil => by simp [jsize, jsonEnc]
  | .boolV b => by cases b <;> simp [jsize, jsonEnc]
  | .intV n => by
      have := one_le_jsonEncInt_length n
      simp [jsize, jsonEnc]
      omega
  | .strV s => by
      simp [jsize, jsonEnc, jsonEncStr]
      omega
  | .arrV [] => by simp [jsize, jesize, jsonEnc]
  | .arrV (x :: xs) => by
      have h1 := jsize_le x
      have h2 := jesize_le xs
      simp [jsize, jesize, jsonEnc]
      omega
  | .mapV [] => by simp [jsize, jpsize, jsonEnc]
  | .mapV ((k, v) :: kvs) => by
      have h1 := jsize_le v
      have h2 := jpsize_le kvs
      simp [jsize, jpsize, jsonEnc, jsonEncStr]
      omega

theorem jesize_le : ∀ xs : List MPValue,
    jesize xs ≤ 2 * (jsonEncElems xs).length + 1
  | [] => by simp [jesize, jsonEncElems]
  | x :: xs => by
      have h1 := jsize_le x
      have h2 := jesize_le xs
      simp [jesize, jsonEncElems]
      omega

theorem jpsize_le : ∀ kvs : List (List Nat × MPValue),
    jpsize kvs ≤ 2 * (jsonEncEntries kvs).length + 1
  | [] => by simp [jpsize, jsonEncEntries]
  | (k, v) :: kvs => by
      have h1 := jsize_le v
      have h2 := jpsize_le kvs
      simp [jpsize, jsonEncEntries, jsonEncStr]
      omega

end

/-! ## Full-input decode of an encoded value, in both formats -/

theorem mpDecodeFull_enc (v : MPValue) (hwf : wfValue v = true) :
    mpDecodeFull (mpEnc v) = some v := by
  have hb : msize v ≤ 2 * (mpEnc v).length + 2 := by
    have := msize_le v
    omega
  have h := mpDec_enc v (2 * (mpEnc v).length + 2) [] hwf hb
  rw [List.append_nil] at h
  rw [mpDecodeFull, h]

theorem jsonDecodeFull_enc (v : MPValue) (hwf : wfValue v = true) :
    jsonDecodeFull (jsonEnc v) = some v := by
  have hb : jsize v ≤ 2 * (jsonEnc v).length + 2 := by
    have := jsize_le v
    omega
  have h := jsonDecVal_enc v (2 * (jsonEnc v).length + 2) [] hwf hb
    (by intro c hc; simp at hc)
  rw [List.append_nil] at h
  rw [jsonDecodeFull, h]
  simp [skipWs]

/-- `deserialize` inverts `serialize` on well-formed mappings, in both
formats. -/
theorem deserialize_serialize (use_msgpack : Bool) (m : MPValue)
    (bs : List Nat) (hm : isMapV m = true)
    (hs : serialize use_msgpack m = some bs) :
    deserialize use_msgpack bs = some m := by
  rw [serialize] at hs
  by_cases hwf : wfValue m = true
  · rw [if_pos hwf] at hs
    cases use_msgpack with
    | true =>
        simp only [if_true, Option.some.injEq] at hs
        subst hs
        rw [deserialize]
        simp [mpDecodeFull_enc m hwf, hm]
    | false =>
        simp only [if_false, Option.some.injEq] at hs
        subst hs
        rw [deserialize]
        simp [jsonDecodeFull_enc m hwf, hm]
  · rw [if_neg hwf] at hs
    exact absurd hs (by simp)

/-! ## Frame structure of `pack_message` output -/

theorem serialize_length_pos (fm : Bool) (m : MPValue) (bs : List Nat)
    (h : serialize fm m = some bs) : 0 < bs.length := by
  rw [serialize] at h
  by_cases hwf : wfValue m = true
  · rw [if_pos hwf] at h
    have hb := Option.some.inj h
    subst hb
    cases fm with
    | true => simpa using one_le_mpEnc_length m
    | false => simpa using one_le_jsonEnc_length m
  · rw [if_neg hwf] at h
    cases h

theorem validate_message_isMapV (m : MPValue)
    (h : validate_message true m = true) : isMapV m = true := by
  cases m <;> simp [validate_message, isMapV] at h ⊢

theorem pack_message_shape (fm vs : Bool) (m : MPValue) (bs : List Nat)
    (h : pack_message fm vs m = some bs) :
    validate_message vs m = true ∧
    ∃ payload, serialize fm m = some payload ∧
      payload.length ≤ MAX_MESSAGE_SIZE ∧
      bs = be32 payload.length ++ payload := by
  rw [pack_message] at h
  by_cases hv : validate_message vs m = true
  · rw [if_pos hv] at h
    refine ⟨hv, ?_⟩
    cases hs : serialize fm m with
    | none => rw [hs] at h; cases h
    | some payload =>
        rw [hs] at h
        change (if payload.length > MAX_MESSAGE_SIZE then none
          else some (be32 payload.length ++ payload)) = some bs at h
        by_cases hlen : payload.length > MAX_MESSAGE_SIZE
        · rw [if_pos hlen] at h
          cases h
        · rw [if_neg hlen] at h
          exact ⟨payload, rfl, by omega, (Option.some.inj h).symm⟩
  · rw [if_neg hv] at h
    cases h

/-- Once a complete frame sits in the buffer, `try_read_message`
delivers the deserialized, re-validated message and resets the handler,
whether or not the header was already parsed on an earlier attempt. -/
theorem tryRead_complete (fm vs : Bool) (a b c d : Nat) (payload : List Nat)
    (e : Option Nat) (m : MPValue)
    (hsz : rd32 a b c d = payload.length) (hsz0 : 0 < payload.length)
    (hszM : payload.length ≤ MAX_MESSAGE_SIZE)
    (he : e = none ∨ e = some payload.length)
    (hdes : deserialize fm payload = some m)
    (hval : validate_message vs m = true) :
    try_read_message ⟨fm, vs, a :: b :: c :: d :: payload, e⟩
      = (.message m, ⟨fm, vs, [], none⟩) := by
  have hTRB : ∀ e' : Option Nat,
      tryReadBody ⟨fm, vs, a :: b :: c :: d :: payload, e'⟩ payload.length
        = (.message m, ⟨fm, vs, [], none⟩) := by
    intro e'
    have t1 : (a :: b :: c :: d :: payload).drop HEADER_SIZE = payload := rfl
    have t2 : (a :: b :: c :: d :: payload).drop (HEADER_SIZE + payload.length)
        = [] := by
      rw [← List.drop_drop, t1, List.drop_length]
    rw [tryReadBody]
    simp only [t1, t2, List.take_length, List.length_cons]
    rw [if_neg (by simp [HEADER_SIZE]; omega)]
    simp [hdes, hval, t2]
  have hlen4 : ¬ ((a :: b :: c :: d :: payload).length < HEADER_SIZE) := by
    simp [HEADER_SIZE]
  rcases he with rfl | rfl
  · rw [try_read_message, if_neg hlen4]
    show (if rd32 a b c d > MAX_MESSAGE_SIZE then
        (TryRead.protoError .oversizeMessage,
          clear_buffer ⟨fm, vs, a :: b :: c :: d :: payload, none⟩)
      else if rd32 a b c d = 0 then
        (TryRead.protoError .zeroLength,
          clear_buffer ⟨fm, vs, a :: b :: c :: d :: payload, none⟩)
      else tryReadBody ⟨fm, vs, a :: b :: c :: d :: payload, none⟩
        (rd32 a b c d))
      = (.message m, ⟨fm, vs, [], none⟩)
    rw [hsz, if_neg (by omega), if_neg (by omega)]
    exact hTRB none
  · rw [try_read_message, if_neg hlen4]
    exact hTRB (some payload.length)

theorem all_replicate (p : Nat → Bool) (n a : Nat) (h : p a = true) :
    (List.replicate n a).all p = true := by
  induction n with
  | zero => rfl
  | succ k ih => simp [List.replicate_succ, h, ih]

/-- Well-formedness of the oversized test message, uniformly in the
payload string. -/
theorem wfValue_bigShape (s : List Nat)
    (h1 : s.all (fun c => decide (c < 128)) = true)
    (h2 : s.length < 4294967296) :
    wfValue (.mapV [(strB "type", .strV (strB "custom")),
      (strB "id", .strV (strB "1")),
      (strB "data", .mapV [(strB "k", .strV s)])]) = true := by
  simp +decide [wfValue, wfPairs, h1, h2, strB]

/-- Schema validity of the oversized test message, uniformly in the
payload string (the `base` descriptor never inspects `data`'s
entries). -/
theorem validate_bigShape (s : List Nat) :
    validate_message true (.mapV [(strB "type", .strV (strB "custom")),
      (strB "id", .strV (strB "1")),
      (strB "data", .mapV [(strB "k", .strV s)])]) = true := by
  simp +decide [validate_message, schemaCheck, checkBase, mlookup, reqProp,
    optProp, keysSub, strLenBetween, isStrOrIntId, isMapV, isConstStr]

/-- Encoded length of the test-message shape: 31 bytes of structure
overhead around the payload string (str32 header for a long string). -/
theorem mpEnc_bigShape_length (s : List Nat) (h : 65536 ≤ s.length) :
    (mpEnc (.mapV [(strB "type", .strV (strB "custom")),
      (strB "id", .strV (strB "1")),
      (strB "data", .mapV [(strB "k", .strV s)])])).length
      = 31 + s.length := by
  have hn1 : ¬ s.length < 32 := by omega
  have hn2 : ¬ s.length < 256 := by omega
  have hn3 : ¬ s.length < 65536 := by omega
  have ht : (strB "type").length = 4 := by decide
  have hi : (strB "id").length = 2 := by decide
  have hd : (strB "data").length = 4 := by decide
  have hc : (strB "custom").length = 6 := by decide
  have h1 : (strB "1").length = 1 := by decide
  have hk : (strB "k").length = 1 := by decide
  simp [mpEnc, mpEncPairs, mpMapHeader, mpStrHeader, be16, be32,
    hn1, hn2, hn3, ht, hi, hd, hc, h1, hk]
  omega

/-- The MessagePack payload of `bigMsg` is exactly the 10 MiB cap. -/
theorem mpEnc_bigMsg_length : (mpEnc bigMsg).length = MAX_MESSAGE_SIZE := by
  have h := mpEnc_bigShape_length (List.replicate 10485729 97)
    (by rw [List.length_replicate]; omega)
  have hb : (mpEnc bigMsg).length
      = 31 + (List.replicate 10485729 (97 : Nat)).length := h
  rw [hb, List.length_replicate]
  decide

/-- A packed frame that exceeds the buffer cap is refused by
`feed_data`, so the round-trip yields nothing. -/
theorem bufferedRoundtrip_overflow (fm vs : Bool) (m : MPValue)
    (bs : List Nat) (hpack : pack_message fm vs m = some bs)
    (hov : bs.length > MAX_MESSAGE_SIZE) :
    bufferedRoundtrip fm vs m = none := by
  rw [bufferedRoundtrip, hpack]
  have hfeed : feed_data ⟨fm, vs, [], none⟩ bs
      = (some .bufferOverflow, ⟨fm, vs, [], none⟩) := by
    rw [feed_data, if_pos (by simpa using hov)]
  simp [hfeed]

/-- C5 (counterexample): `bigMsg` passes schema validation and
`pack_message` produces its frame, yet feeding that frame back through
the buffered reader raises a buffer overflow instead of returning the
message: the payload cap in `pack_message` ignores the four header
bytes that `feed_data`'s buffer cap must also hold. -/
theorem c5_counterexample_header_overflow :
    validate_message true bigMsg = true ∧
    pack_message true true bigMsg
      = some (be32 MAX_MESSAGE_SIZE ++ mpEnc bigMsg) ∧
    bufferedRoundtrip true true bigMsg = none := by
  have hwf : wfValue bigMsg = true :=
    wfValue_bigShape (List.replicate 10485729 97)
      (all_replicate _ _ _ (by decide))
      (by rw [List.length_replicate]; omega)
  have hval : validate_message true bigMsg = true :=
    validate_bigShape (List.replicate 10485729 97)
  have hlen := mpEnc_bigMsg_length
  have hser : serialize true bigMsg = some (mpEnc bigMsg) := by
    rw [serialize, if_pos hwf]
    rfl
  have hpack : pack_message true true bigMsg
      = some (be32 MAX_MESSAGE_SIZE ++ mpEnc bigMsg) := by
    rw [pack_message, if_pos hval, hser]
    change (if (mpEnc bigMsg).length > MAX_MESSAGE_SIZE then none
      else some (be32 (mpEnc bigMsg).length ++ mpEnc bigMsg))
      = some (be32 MAX_MESSAGE_SIZE ++ mpEnc bigMsg)
    rw [hlen, if_neg (by omega)]
  have hblen : (be32 MAX_MESSAGE_SIZE ++ mpEnc bigMsg).length
      = 4 + MAX_MESSAGE_SIZE := by
    rw [List.length_append, hlen]
    rfl
  refine ⟨hval, hpack, ?_⟩
  exact bufferedRoundtrip_overflow true true bigMsg _ hpack
    (by rw [hblen]; omega)

/-- C5 (amended): for every message that packs successfully and whose
whole frame (header plus payload) also fits the 10 MiB buffer cap,
packing and then parsing through the buffered reader returns the
original message, in both serialization formats. -/
theorem c5_framed_roundtrip (use_msgpack : Bool) (m : MPValue)
    (bs : List Nat) (hpack : pack_message use_msgpack true m = some bs)
    (hfit : bs.length ≤ MAX_MESSAGE_SIZE) :
    bufferedRoundtrip use_msgpack true m = some m := by
  obtain ⟨hval, payload, hser, hplen, hbs⟩ := pack_message_shape _ _ _ _ hpack
  subst hbs
  have hpos := serialize_length_pos _ _ _ hser
  have hmap := validate_message_isMapV m hval
  have hdes := deserialize_serialize use_msgpack m payload hmap hser
  have hfit' : 4 + payload.length ≤ MAX_MESSAGE_SIZE := by
    simp [be32] at hfit
    omega
  have hszlt : payload.length < 4294967296 := by
    have hM : MAX_MESSAGE_SIZE < 4294967296 := by norm_num [MAX_MESSAGE_SIZE]
    omega
  have hrd := rd32_be32 payload.length hszlt
  have hframe : be32 payload.length ++ payload
      = payload.length / 16777216 % 256 :: payload.length / 65536 % 256 ::
        payload.length / 256 % 256 :: payload.length % 256 :: payload := rfl
  have hfeed : feed_data ⟨use_msgpack, true, [], none⟩
      (payload.length / 16777216 % 256 :: payload.length / 65536 % 256 ::
        payload.length / 256 % 256 :: payload.length % 256 :: payload)
      = (none, ⟨use_msgpack, true,
          payload.length / 16777216 % 256 :: payload.length / 65536 % 256 ::
          payload.length / 256 % 256 :: payload.length % 256 :: payload,
          none⟩) := by
    rw [feed_data, if_neg (by simp; omega)]
    rfl
  have htr := tryRead_complete use_msgpack true _ _ _ _ payload none m hrd
    hpos hplen (Or.inl rfl) hdes hval
  rw [bufferedRoundtrip, hpack, hframe]
  simp [hfeed, htr]

/-- C5 witness: the round-trip theorem applied to the small valid
`pingMsg`, whose MessagePack frame fits the buffer cap. -/
theorem c5_roundtrip_witness :
    pack_message true true pingMsg = some pingFrame ∧
    pingFrame.length ≤ MAX_MESSAGE_SIZE ∧
    bufferedRoundtrip true true pingMsg = some pingMsg :=
  ⟨by decide, by decide,
    c5_framed_roundtrip true pingMsg pingFrame (by decide) (by decide)⟩

/-! ## Fragmented feeding: invariants of the buffered reader -/

theorem messagesOf_nothing (rs : List TryRead) :
    messagesOf (.nothing :: rs) = messagesOf rs := rfl

theorem errorsOf_nothing (rs : List TryRead) :
    errorsOf (.nothing :: rs) = errorsOf rs := rfl

theorem messagesOf_cons (r : TryRead) (rs : List TryRead) :
    messagesOf (r :: rs) = messagesOf [r] ++ messagesOf rs := by
  cases r <;> simp [messagesOf]

theorem errorsOf_cons (r : TryRead) (rs : List TryRead) :
    errorsOf (r :: rs) = errorsOf [r] ++ errorsOf rs := by
  cases r <;> simp [errorsOf]

/-- Successful `feed_data` appends to the buffer and changes nothing
else. -/
theorem feed_ok (fm vs : Bool) (P : List Nat) (e : Option Nat)
    (chunk : List Nat) (h : P.length + chunk.length ≤ MAX_MESSAGE_SIZE) :
    feed_data ⟨fm, vs, P, e⟩ chunk = (none, ⟨fm, vs, P ++ chunk, e⟩) := by
  rw [feed_data, if_neg (by simp; omega)]

/-- Overfull `feed_data` raises and leaves the handler unchanged. -/
theorem feed_overflow (fm vs : Bool) (P : List Nat) (e : Option Nat)
    (chunk : List Nat) (h : P.length + chunk.length > MAX_MESSAGE_SIZE) :
    feed_data ⟨fm, vs, P, e⟩ chunk
      = (some .bufferOverflow, ⟨fm, vs, P, e⟩) := by
  rw [feed_data, if_pos (by simpa using h)]

/-- Below four buffered bytes `try_read_message` does nothing. -/
theorem tryRead_short (fm vs : Bool) (P : List Nat) (e : Option Nat)
    (h : P.length < HEADER_SIZE) :
    try_read_message ⟨fm, vs, P, e⟩ = (.nothing, ⟨fm, vs, P, e⟩) := by
  rw [try_read_message, if_pos h]

/-- With the header present but the frame incomplete,
`try_read_message` waits, leaving the parsed size sticky. -/
theorem tryRead_partial (fm vs : Bool) (a b c d sz : Nat) (Q : List Nat)
    (e : Option Nat) (hrd : rd32 a b c d = sz) (hsz0 : 0 < sz)
    (hszM : sz ≤ MAX_MESSAGE_SIZE) (hQ : Q.length < sz)
    (he : e = none ∨ e = some sz) :
    try_read_message ⟨fm, vs, a :: b :: c :: d :: Q, e⟩
      = (.nothing, ⟨fm, vs, a :: b :: c :: d :: Q, some sz⟩) := by
  have hlen4 : ¬ ((a :: b :: c :: d :: Q).length < HEADER_SIZE) := by
    simp [HEADER_SIZE]
  have hTRB : ∀ e' : Option Nat,
      tryReadBody ⟨fm, vs, a :: b :: c :: d :: Q, e'⟩ sz
        = (.nothing, ⟨fm, vs, a :: b :: c :: d :: Q, some sz⟩) := by
    intro e'
    have hc : (⟨fm, vs, a :: b :: c :: d :: Q, e'⟩ :
        BufferedProtocolHandler).buffer.length < HEADER_SIZE + sz := by
      simp [HEADER_SIZE]
      omega
    rw [tryReadBody, if_pos hc]
  rcases he with rfl | rfl
  · rw [try_read_message, if_neg hlen4]
    show (if rd32 a b c d > MAX_MESSAGE_SIZE then
        (TryRead.protoError .oversizeMessage,
          clear_buffer ⟨fm, vs, a :: b :: c :: d :: Q, none⟩)
      else if rd32 a b c d = 0 then
        (TryRead.protoError .zeroLength,
          clear_buffer ⟨fm, vs, a :: b :: c :: d :: Q, none⟩)
      else tryReadBody ⟨fm, vs, a :: b :: c :: d :: Q, none⟩ (rd32 a b c d))
      = (.nothing, ⟨fm, vs, a :: b :: c :: d :: Q, some sz⟩)
    rw [hrd, if_neg (by omega), if_neg (by omega)]
    exact hTRB none
  · rw [try_read_message, if_neg hlen4]
    exact hTRB (some sz)

/-- Completion step of the reader on a full frame, with the raised
exceptions as explicit results. -/
theorem tryReadBody_full (fm vs : Bool) (a b c d : Nat) (payload : List Nat)
    (e : Option Nat) :
    tryReadBody ⟨fm, vs, a :: b :: c :: d :: payload, e⟩ payload.length
      = ((match deserialize fm payload with
          | none => TryRead.protoError .deserializeFailed
          | some msg =>
              if validate_message vs msg then TryRead.message msg
              else TryRead.protoError .schemaFailed),
        ⟨fm, vs, [], none⟩) := by
  have t1 : (a :: b :: c :: d :: payload).drop HEADER_SIZE = payload := rfl
  have t2 : (a :: b :: c :: d :: payload).drop (HEADER_SIZE + payload.length)
      = [] := by
    rw [← List.drop_drop, t1, List.drop_length]
  rw [tryReadBody]
  simp only [t1, t2, List.take_length, List.length_cons]
  rw [if_neg (by simp [HEADER_SIZE]; omega)]
  cases hd : deserialize fm payload with
  | none => simp [hd, t2]
  | some msg =>
      by_cases hv : validate_message vs msg = true
      · simp [hd, hv, t2]
      · simp [hd, hv, t2]

/-- `try_read_message` on a complete frame: header checks pass and the
completion step runs, whether or not the size was already sticky. -/
theorem tryRead_full_result (fm vs : Bool) (a b c d : Nat)
    (payload : List Nat) (e : Option Nat)
    (hrd : rd32 a b c d = payload.length) (hsz0 : 0 < payload.length)
    (hszM : payload.length ≤ MAX_MESSAGE_SIZE)
    (he : e = none ∨ e = some payload.length) :
    try_read_message ⟨fm, vs, a :: b :: c :: d :: payload, e⟩
      = ((match deserialize fm payload with
          | none => TryRead.protoError .deserializeFailed
          | some msg =>
              if validate_message vs msg then TryRead.message msg
              else TryRead.protoError .schemaFailed),
        ⟨fm, vs, [], none⟩) := by
  have hlen4 : ¬ ((a :: b :: c :: d :: payload).length < HEADER_SIZE) := by
    simp [HEADER_SIZE]
  rcases he with rfl | rfl
  · rw [try_read_message, if_neg hlen4]
    show (if rd32 a b c d > MAX_MESSAGE_SIZE then
        (TryRead.protoError .oversizeMessage,
          clear_buffer ⟨fm, vs, a :: b :: c :: d :: payload, none⟩)
      else if rd32 a b c d = 0 then
        (TryRead.protoError .zeroLength,
          clear_buffer ⟨fm, vs, a :: b :: c :: d :: payload, none⟩)
      else tryReadBody ⟨fm, vs, a :: b :: c :: d :: payload, none⟩
        (rd32 a b c d)) = _
    rw [hrd, if_neg (by omega), if_neg (by omega)]
    exact tryReadBody_full fm vs a b c d payload none
  · rw [try_read_message, if_neg hlen4]
    exact tryReadBody_full fm vs a b c d payload (some payload.length)

/-- After the frame is consumed, trailing empty chunks feed and parse
to nothing. -/
theorem feedTry_drain (fm vs : Bool) : ∀ (chunks : List (List Nat)),
    chunks.flatten = [] →
    messagesOf (feedAndTryAll ⟨fm, vs, [], none⟩ chunks).1 = [] ∧
    errorsOf (feedAndTryAll ⟨fm, vs, [], none⟩ chunks).1 = []
  | [], _ => by simp [feedAndTryAll, messagesOf, errorsOf]
  | c :: rest, hnil => by
      have hc : c = [] ∧ rest.flatten = [] := by simpa using hnil
      obtain ⟨rfl, hrest⟩ := hc
      have hfeed := feed_ok fm vs [] none []
        (by simp [MAX_MESSAGE_SIZE])
      have htr := tryRead_short fm vs ([] ++ []) none
        (by simp [HEADER_SIZE])
      have ih := feedTry_drain fm vs rest hrest
      rw [feedAndTryAll]
      simp [hfeed, htr, messagesOf, errorsOf, ih.1, ih.2]

/-- One wait step of the invariant: a proper prefix of the frame in
the buffer parses to nothing and re-establishes the sticky-size
invariant. -/
theorem tryRead_invariant (fm vs : Bool) (a b c d : Nat)
    (payload : List Nat) (hrd : rd32 a b c d = payload.length)
    (hsz0 : 0 < payload.length) (hszM : payload.length ≤ MAX_MESSAGE_SIZE)
    (P t : List Nat) (e : Option Nat)
    (hpre : P ++ t = a :: b :: c :: d :: payload)
    (hlt : P.length < 4 + payload.length)
    (he : e = none ∨ e = some payload.length)
    (heshort : P.length < 4 → e = none) :
    try_read_message ⟨fm, vs, P, e⟩
      = (.nothing, ⟨fm, vs, P,
          if P.length < 4 then none else some payload.length⟩) := by
  by_cases h4 : P.length < 4
  · rw [heshort h4, if_pos h4]
    exact tryRead_short fm vs P none (by simp [HEADER_SIZE]; omega)
  · rcases P with _ | ⟨p1, _ | ⟨p2, _ | ⟨p3, _ | ⟨p4, Q⟩⟩⟩⟩ <;>
      simp only [List.length_cons, List.length_nil] at h4 <;>
      try omega
    simp only [List.cons_append, List.cons.injEq] at hpre
    obtain ⟨rfl, rfl, rfl, rfl, hQ⟩ := hpre
    have hQlen : Q.length < payload.length := by
      simp only [List.length_cons] at hlt
      omega
    rw [if_neg (show ¬ ((p1 :: p2 :: p3 :: p4 :: Q).length < 4) by
      simp only [List.length_cons]
      omega)]
    exact tryRead_partial fm vs p1 p2 p3 p4 payload.length Q e hrd hsz0 hszM
      hQlen he

/-- Chunked feeding of a frame that fits the buffer cap: every proper
prefix waits, the completing chunk delivers the reader's verdict, and
trailing empty chunks add nothing. -/
theorem frag_run_complete (fm vs : Bool) (a b c d : Nat)
    (payload : List Nat) (hrd : rd32 a b c d = payload.length)
    (hsz0 : 0 < payload.length) (hszM : payload.length ≤ MAX_MESSAGE_SIZE)
    (hfit : 4 + payload.length ≤ MAX_MESSAGE_SIZE) :
    ∀ (chunks : List (List Nat)) (P : List Nat) (r : TryRead),
      ((match deserialize fm payload with
        | none => TryRead.protoError .deserializeFailed
        | some msg =>
            if validate_message vs msg then TryRead.message msg
            else TryRead.protoError .schemaFailed) = r) →
      P ++ chunks.flatten = a :: b :: c :: d :: payload →
      P.length < 4 + payload.length →
      messagesOf (feedAndTryAll
          ⟨fm, vs, P, if P.length < 4 then none else some payload.length⟩
          chunks).1 = messagesOf [r] ∧
      errorsOf (feedAndTryAll
          ⟨fm, vs, P, if P.length < 4 then none else some payload.length⟩
          chunks).1 = errorsOf [r] := by
  intro chunks
  induction chunks with
  | nil =>
      intro P r hr hP hlt
      exfalso
      have hlenP := congrArg List.length hP
      simp at hlenP
      omega
  | cons chunk rest ih =>
      intro P r hr hP hlt
      have hP' : (P ++ chunk) ++ rest.flatten
          = a :: b :: c :: d :: payload := by
        rw [List.append_assoc]
        simpa [List.flatten_cons] using hP
      have hlenP' := congrArg List.length hP'
      simp only [List.length_append, List.length_cons] at hlenP'
      have hfeed := feed_ok fm vs P
        (if P.length < 4 then none else some payload.length) chunk
        (by omega)
      have he : (if P.length < 4 then none else some payload.length) = none
          ∨ (if P.length < 4 then none else some payload.length)
            = some payload.length := by
        by_cases hP4 : P.length < 4
        · exact Or.inl (by simp [hP4])
        · exact Or.inr (by simp [hP4])
      have heshort : (P ++ chunk).length < 4 →
          (if P.length < 4 then none else some payload.length) = none := by
        intro h
        simp only [List.length_append] at h
        simp [show P.length < 4 by omega]
      rcases Nat.lt_or_ge (P ++ chunk).length (4 + payload.length)
        with hlt' | hge
      · -- the frame is still incomplete: wait and recurse
        have htr := tryRead_invariant fm vs a b c d payload hrd hsz0 hszM
          (P ++ chunk) rest.flatten
          (if P.length < 4 then none else some payload.length)
          hP' hlt' he heshort
        have hrec := ih (P ++ chunk) r hr hP' hlt'
        have hshape : (feedAndTryAll
            ⟨fm, vs, P, if P.length < 4 then none else some payload.length⟩
            (chunk :: rest)).1
            = .nothing :: (feedAndTryAll ⟨fm, vs, P ++ chunk,
                if (P ++ chunk).length < 4 then none
                else some payload.length⟩ rest).1 := by
          rw [feedAndTryAll]
          simp [hfeed, htr]
        rw [hshape]
        refine ⟨?_, ?_⟩
        · rw [messagesOf_nothing]
          exact hrec.1
        · rw [errorsOf_nothing]
          exact hrec.2
      · -- the chunk completes the frame
        have hrestlen : rest.flatten.length = 0 := by
          simp only [List.length_append] at hge
          omega
        have hrestnil : rest.flatten = [] :=
          List.eq_nil_of_length_eq_zero hrestlen
        have hPC : P ++ chunk = a :: b :: c :: d :: payload := by
          rw [hrestnil, List.append_nil] at hP'
          exact hP'
        have htr := tryRead_full_result fm vs a b c d payload
          (if P.length < 4 then none else some payload.length)
          hrd hsz0 hszM he
        have hdrain := feedTry_drain fm vs rest hrestnil
        have hshape : (feedAndTryAll
            ⟨fm, vs, P, if P.length < 4 then none else some payload.length⟩
            (chunk :: rest)).1
            = r :: (feedAndTryAll ⟨fm, vs, [], none⟩ rest).1 := by
          rw [feedAndTryAll]
          simp [hfeed, hPC, htr, hr]
        rw [hshape]
        refine ⟨?_, ?_⟩
        · rw [messagesOf_cons, hdrain.1, List.append_nil]
        · rw [errorsOf_cons, hdrain.2, List.append_nil]

/-- Chunked feeding of a frame whose header-plus-payload exceeds the
buffer cap: the reader waits on every fed prefix until the overflow
point, then the feed itself raises, matching the single-shot result. -/
theorem frag_run_overflow (fm vs : Bool) (a b c d : Nat)
    (payload : List Nat) (hrd : rd32 a b c d = payload.length)
    (hsz0 : 0 < payload.length) (hszM : payload.length ≤ MAX_MESSAGE_SIZE)
    (hbig : 4 + payload.length > MAX_MESSAGE_SIZE) :
    ∀ (chunks : List (List Nat)) (P : List Nat),
      P ++ chunks.flatten = a :: b :: c :: d :: payload →
      P.length ≤ MAX_MESSAGE_SIZE →
      messagesOf (feedAndTryAll
          ⟨fm, vs, P, if P.length < 4 then none else some payload.length⟩
          chunks).1 = [] ∧
      errorsOf (feedAndTryAll
          ⟨fm, vs, P, if P.length < 4 then none else some payload.length⟩
          chunks).1 = [.bufferOverflow] := by
  intro chunks
  induction chunks with
  | nil =>
      intro P hP hle
      exfalso
      have hlenP := congrArg List.length hP
      simp at hlenP
      omega
  | cons chunk rest ih =>
      intro P hP hle
      have hP' : (P ++ chunk) ++ rest.flatten
          = a :: b :: c :: d :: payload := by
        rw [List.append_assoc]
        simpa [List.flatten_cons] using hP
      have hlenP' := congrArg List.length hP'
      simp only [List.length_append, List.length_cons] at hlenP'
      by_cases hov : P.length + chunk.length > MAX_MESSAGE_SIZE
      · have hfeed := feed_overflow fm vs P
          (if P.length < 4 then none else some payload.length) chunk hov
        rw [feedAndTryAll]
        simp [hfeed, messagesOf, errorsOf]
      · have hfeed := feed_ok fm vs P
          (if P.length < 4 then none else some payload.length) chunk
          (by omega)
        have he : (if P.length < 4 then none else some payload.length) = none
            ∨ (if P.length < 4 then none else some payload.length)
              = some payload.length := by
          by_cases hP4 : P.length < 4
          · exact Or.inl (by simp [hP4])
          · exact Or.inr (by simp [hP4])
        have heshort : (P ++ chunk).length < 4 →
            (if P.length < 4 then none else some payload.length) = none := by
          intro h
          simp only [List.length_append] at h
          simp [show P.length < 4 by omega]
        have hlt' : (P ++ chunk).length < 4 + payload.length := by
          simp only [List.length_append]
          omega
        have htr := tryRead_invariant fm vs a b c d payload hrd hsz0 hszM
          (P ++ chunk) rest.flatten
          (if P.length < 4 then none else some payload.length)
          hP' hlt' he heshort
        have hrec := ih (P ++ chunk) hP'
          (by simp only [List.length_append]; omega)
        have hshape : (feedAndTryAll
            ⟨fm, vs, P, if P.length < 4 then none else some payload.length⟩
            (chunk :: rest)).1
            = .nothing :: (feedAndTryAll ⟨fm, vs, P ++ chunk,
                if (P ++ chunk).length < 4 then none
                else some payload.length⟩ rest).1 := by
          rw [feedAndTryAll]
          simp [hfeed, htr]
        rw [hshape]
        refine ⟨?_, ?_⟩
        · rw [messagesOf_nothing]
          exact hrec.1
        · rw [errorsOf_nothing]
          exact hrec.2

/-- C6: feeding any ordered partition of a packed frame chunk by chunk,
with a parse attempt after every feed, yields the same messages and the
same errors as feeding the whole frame in one call. -/
theorem c6_fragmentation_equiv (fm vs : Bool) (m : MPValue) (bs : List Nat)
    (chunks : List (List Nat)) (hpack : pack_message fm vs m = some bs)
    (hflat : chunks.flatten = bs) :
    messagesOf (feedAndTryAll ⟨fm, vs, [], none⟩ chunks).1
      = messagesOf (feedAndTryAll ⟨fm, vs, [], none⟩ [bs]).1 ∧
    errorsOf (feedAndTryAll ⟨fm, vs, [], none⟩ chunks).1
      = errorsOf (feedAndTryAll ⟨fm, vs, [], none⟩ [bs]).1 := by
  obtain ⟨hval, payload, hser, hplen, hbs⟩ := pack_message_shape _ _ _ _ hpack
  subst hbs
  have hpos := serialize_length_pos _ _ _ hser
  have hszlt : payload.length < 4294967296 := by
    have hM : MAX_MESSAGE_SIZE < 4294967296 := by norm_num [MAX_MESSAGE_SIZE]
    omega
  have hrd := rd32_be32 payload.length hszlt
  have hframe : be32 payload.length ++ payload
      = payload.length / 16777216 % 256 :: payload.length / 65536 % 256 ::
        payload.length / 256 % 256 :: payload.length % 256 :: payload := rfl
  rw [hframe] at hflat ⊢
  rcases le_or_lt (4 + payload.length) MAX_MESSAGE_SIZE with hfit | hbig
  · have hA := frag_run_complete fm vs _ _ _ _ payload hrd hpos hplen hfit
      chunks []
      (match deserialize fm payload with
        | none => TryRead.protoError .deserializeFailed
        | some msg =>
            if validate_message vs msg then TryRead.message msg
            else TryRead.protoError .schemaFailed)
      rfl (by simpa using hflat)
      (by simp only [List.length_nil]; omega)
    have hA1 : messagesOf (feedAndTryAll ⟨fm, vs, [], none⟩ chunks).1
        = messagesOf [(match deserialize fm payload with
            | none => TryRead.protoError .deserializeFailed
            | some msg =>
                if validate_message vs msg then TryRead.message msg
                else TryRead.protoError .schemaFailed)] := hA.1
    have hA2 : errorsOf (feedAndTryAll ⟨fm, vs, [], none⟩ chunks).1
        = errorsOf [(match deserialize fm payload with
            | none => TryRead.protoError .deserializeFailed
            | some msg =>
                if validate_message vs msg then TryRead.message msg
                else TryRead.protoError .schemaFailed)] := hA.2
    have hfeed := feed_ok fm vs [] none
      (payload.length / 16777216 % 256 :: payload.length / 65536 % 256 ::
        payload.length / 256 % 256 :: payload.length % 256 :: payload)
      (by simp only [List.length_nil, List.length_cons]; omega)
    have htr := tryRead_full_result fm vs _ _ _ _ payload none hrd hpos hplen
      (Or.inl rfl)
    have hsingle : (feedAndTryAll ⟨fm, vs, [], none⟩
        [payload.length / 16777216 % 256 :: payload.length / 65536 % 256 ::
          payload.length / 256 % 256 :: payload.length % 256 :: payload]).1
        = [(match deserialize fm payload with
            | none => TryRead.protoError .deserializeFailed
            | some msg =>
                if validate_message vs msg then TryRead.message msg
                else TryRead.protoError .schemaFailed)] := by
      rw [feedAndTryAll]
      simp [hfeed, htr, feedAndTryAll]
    rw [hsingle]
    exact ⟨hA1, hA2⟩
  · have hB := frag_run_overflow fm vs _ _ _ _ payload hrd hpos hplen hbig
      chunks [] (by simpa using hflat) (by simp [MAX_MESSAGE_SIZE])
    have hB1 : messagesOf (feedAndTryAll ⟨fm, vs, [], none⟩ chunks).1
        = [] := hB.1
    have hB2 : errorsOf (feedAndTryAll ⟨fm, vs, [], none⟩ chunks).1
        = [.bufferOverflow] := hB.2
    have hfeedo := feed_overflow fm vs [] none
      (payload.length / 16777216 % 256 :: payload.length / 65536 % 256 ::
        payload.length / 256 % 256 :: payload.length % 256 :: payload)
      (by simp only [List.length_nil, List.length_cons]; omega)
    have hsingle : (feedAndTryAll ⟨fm, vs, [], none⟩
        [payload.length / 16777216 % 256 :: payload.length / 65536 % 256 ::
          payload.length / 256 % 256 :: payload.length % 256 :: payload]).1
        = [.protoError .bufferOverflow] := by
      rw [feedAndTryAll]
      simp [hfeedo]
    rw [hsingle]
    constructor
    · rw [hB1]
      simp [messagesOf]
    · rw [hB2]
      simp [errorsOf]

/-- C6 witness: the fragmentation theorem applied to `pingMsg`'s frame
split after its third byte. -/
theorem c6_fragmentation_witness :
    pack_message true true pingMsg = some pingFrame ∧
    [pingFrame.take 3, pingFrame.drop 3].flatten = pingFrame ∧
    (messagesOf (feedAndTryAll ⟨true, true, [], none⟩
        [pingFrame.take 3, pingFrame.drop 3]).1
      = messagesOf (feedAndTryAll ⟨true, true, [], none⟩ [pingFrame]).1 ∧
    errorsOf (feedAndTryAll ⟨true, true, [], none⟩
        [pingFrame.take 3, pingFrame.drop 3]).1
      = errorsOf (feedAndTryAll ⟨true, true, [], none⟩ [pingFrame]).1) :=
  ⟨by decide, by decide,
    c6_fragmentation_equiv true true pingMsg pingFrame
      [pingFrame.take 3, pingFrame.drop 3] (by decide) (by decide)⟩

end QgisMcp
